import Mathlib

/-!
# Formal model of the pytracts schema engine and its codecs

This file gives a shallow embedding of the pytracts message/codec library:

* the value domain (`PyValue`) of Python values flowing through the codecs,
  including message instances with their assigned-field table and
  unknown-field ledger;
* the schema (`MessageType`, `FieldDesc`, `FieldKind`) describing record
  types;
* the nested-map codec, translated from `pytracts/to_dict.py`;
* the JSON codec, translated from `pytracts/to_json.py` (the textual
  `json.dumps`/`json.loads` layer of the external `json` module is modelled
  at the JSON-tree level);
* the schema-instance machinery (`messages.py` is not part of the source
  tree; it is modelled from the specification where needed), and
* the query-string codec (`to_url.py` is not part of the source tree; it is
  modelled from the specification and the repository's tests).

Theorems at the end settle the behavioural claims about these components.
-/

set_option autoImplicit false
set_option linter.unusedVariables false
set_option linter.unreachableTactic false
set_option linter.unusedTactic false

namespace Pytracts

/-- Wire-level variant tags (`messages.Variant`). -/
inductive Variant where
  | BOOL | INT64 | DOUBLE | STRING | BYTES | ENUM | MESSAGE | UNTYPED
deriving DecidableEq, Repr

/-- A dictionary / unknown-field-ledger key: Python permits both strings and
integers here (`decode_dictionary` coerces digit-only keys to `int`). -/
inductive DKey where
  | str (s : String)
  | num (n : Int)
deriving DecidableEq, Repr

/-- Python exceptions that the modelled code can raise. -/
inductive PyErr where
  | typeErr        -- TypeError
  | valueErr       -- ValueError
  | validationErr  -- messages.ValidationError
  | decodeErr      -- messages.DecodeError
  | attrErr        -- AttributeError
  | indexErr       -- IndexError
deriving DecidableEq, Repr

/-- Scalar default values a field descriptor may carry (defaults are
forbidden for repeated fields and are scalars in practice). -/
inductive SimpleVal where
  | sbool (b : Bool)
  | sint (n : Int)
  | sfloat (q : Rat)
  | sstr (s : String)
deriving DecidableEq, Repr

mutual

/-- A record type: a declared list of field descriptors
(declaration order is kept, matching `all_fields` iteration). -/
inductive MessageType where
  | mk (fields : List FieldDesc)

/-- One field descriptor: wire name, `required`/`repeated` flags, optional
default, and its concrete kind. -/
inductive FieldDesc where
  | mk (name : String) (required : Bool) (repeated : Bool)
       (default : Option SimpleVal) (kind : FieldKind)

/-- The concrete kind of a field (one constructor per field class of
`pytracts.messages`). -/
inductive FieldKind where
  | kint                                  -- IntegerField
  | kfloat                                -- FloatField
  | kbool                                 -- BooleanField
  | kstr                                  -- StringField
  | kbytes                                -- BytesField
  | kdtIso                                -- DateTimeISO8601Field
  | kdtMs                                 -- DateTimeMsIntegerField
  | kuuid                                 -- UUIDField
  | kdict                                 -- DictField
  | kuntyped                              -- UntypedField
  | kenum (members : List (String × Int)) -- EnumField with its bound Enum
  | kmsg (t : MessageType)                -- MessageField with its bound type

end

namespace FieldDesc

def name : FieldDesc → String
  | .mk n _ _ _ _ => n

def required : FieldDesc → Bool
  | .mk _ r _ _ _ => r

def repeated : FieldDesc → Bool
  | .mk _ _ r _ _ => r

def default : FieldDesc → Option SimpleVal
  | .mk _ _ _ d _ => d

def kind : FieldDesc → FieldKind
  | .mk _ _ _ _ k => k

end FieldDesc

namespace MessageType

def fields : MessageType → List FieldDesc
  | .mk fs => fs

/-- `field_by_name`: look a field up by its wire name. -/
def fieldByName (t : MessageType) (n : String) : Option FieldDesc :=
  t.fields.find? (fun f => f.name == n)

end MessageType

/-- The Python value domain: every value the codecs can see, including
datetimes/UUIDs (with abstract payloads), enum members, and message
instances.  A message instance `vmsg t assigned unknown` carries its record
type, its table of explicitly-assigned fields (in canonical declaration
order) and its unknown-field ledger. -/
inductive PyValue where
  | vnone
  | vbool (b : Bool)
  | vint (n : Int)
  | vfloat (q : Rat)
  | vstr (s : String)
  | vbytes (bs : List Nat)
  | vdatetime (t : Int)
  | vdate (t : Int)
  | vtime (t : Int)
  | vuuid (u : Nat)
  | venum (name : String) (number : Int)
  | vlist (xs : List PyValue)
  | vdict (kvs : List (DKey × PyValue))
  | vmsg (t : MessageType) (assigned : List (String × PyValue))
         (unknown : List (DKey × PyValue × Variant))

end Pytracts

namespace Pytracts

/-! ## Association-list helpers

Python dictionaries are modelled as ordered association lists;
`dinsert` is Python's `d[k] = v` (update in place, else append),
which keeps insertion order exactly like a Python `dict`. -/

/-- Python `d[k] = v` on a dict modelled as an ordered association list. -/
def dinsert {α β : Type} [BEq α] (k : α) (v : β) : List (α × β) → List (α × β)
  | [] => [(k, v)]
  | (k', v') :: rest =>
      if k' == k then (k, v) :: rest else (k', v') :: dinsert k v rest

/-- First binding of `k`, if any (Python `d[k]` / `k in d`). -/
def alookup {α β : Type} [BEq α] (k : α) : List (α × β) → Option β
  | [] => none
  | (k', v') :: rest => if k' == k then some v' else alookup k rest

/-- Looking a value up in an association list finds a structurally smaller
element (used for termination of the recursions below). -/
theorem alookup_sizeOf_lt {β : Type} [SizeOf β] (k : String) (l : List (String × β))
    (v : β) (h : alookup k l = some v) : sizeOf v < sizeOf l := by
  induction l with
  | nil => simp [alookup] at h
  | cons hd tl ih =>
      obtain ⟨k', v'⟩ := hd
      simp only [alookup] at h
      by_cases hk : k' == k
      · simp [hk] at h
        subst h
        simp
        omega
      · simp [hk] at h
        have := ih h
        simp
        omega

/-! ## The instance model (`messages.py` is not in the source tree)

Modelled from the spec: a record instance keeps, per field, whether the
field was ever explicitly assigned and the assigned value, plus the
unknown-field ledger mapping wire keys to (raw value, inferred variant). -/

/-- A freshly constructed record instance: no field assigned, empty
unknown-field ledger. -/
def freshMessage (mt : MessageType) : PyValue := .vmsg mt [] []

/-- Modelled from the spec: `set_unrecognized_field(key, value, variant)`
records an entry in the instance's unknown-field ledger. -/
def setUnrecognized (m : PyValue) (k : DKey) (v : PyValue) (var : Variant) : PyValue :=
  match m with
  | .vmsg t assigned unknown => .vmsg t assigned (dinsert k (v, var) unknown)
  | m => m

/-- The assigned-field table of a message instance. -/
def assignedOf : PyValue → List (String × PyValue)
  | .vmsg _ assigned _ => assigned
  | _ => []

/-- The unknown-field ledger of a message instance
(`all_unrecognized_fields` / `get_unrecognized_field_info`). -/
def unknownOf : PyValue → List (DKey × PyValue × Variant)
  | .vmsg _ _ unknown => unknown
  | _ => []

/-- Modelled from the spec: per-element validation of a scalar value against
a field kind, as enforced on attribute assignment (`validate_element`).
Values of the field's native type are accepted; `UntypedField` accepts
anything; `DictField` accepts dictionaries; enum members must belong to the
field's bound enumerated type. -/
def validElement (k : FieldKind) (v : PyValue) : Bool :=
  match k, v with
  | .kint, .vint _ => true
  | .kfloat, .vfloat _ => true
  | .kfloat, .vint _ => true
  | .kbool, .vbool _ => true
  | .kstr, .vstr _ => true
  | .kbytes, .vbytes _ => true
  | .kdtIso, .vdatetime _ => true
  | .kdtMs, .vdatetime _ => true
  | .kuuid, .vuuid _ => true
  | .kdict, .vdict _ => true
  | .kuntyped, _ => true
  | .kenum members, .venum n num => (n, num) ∈ members
  | .kmsg _, .vmsg _ _ _ => true
  | _, _ => false

/-- Modelled from the spec: write-time validation for `setattr` on a field.
Scalar fields accept `None` only when not required; repeated fields accept
`None` or a sequence of valid, non-`None` elements; scalar values are
checked by `validElement`. -/
def validAssign (f : FieldDesc) (v : PyValue) : Bool :=
  match f.repeated, v with
  | true, .vnone => true
  | true, .vlist xs => xs.all (fun x => !(x matches .vnone) && validElement f.kind x)
  | true, _ => false
  | false, .vnone => !f.required
  | false, v => validElement f.kind v

/-- Modelled from the spec: `setattr(message, field, value)` — validate,
then record the value in the assigned-field table (raising
`ValidationError` on invalid values). -/
def assignField (m : PyValue) (f : FieldDesc) (v : PyValue) : Except PyErr PyValue :=
  match m with
  | .vmsg t assigned unknown =>
      if validAssign f v then .ok (.vmsg t (dinsert f.name v assigned) unknown)
      else .error .validationErr
  | _ => .error .typeErr

/-! ## Variant inference (`to_dict.__find_variant` / `to_json.__find_variant`)

The two copies in `to_dict.py` and `to_json.py` are textually identical;
they are modelled once. -/

/-- The list `variant_priority = [None, Variant.INT64, Variant.DOUBLE,
Variant.STRING]`, read at a priority index. -/
def priorityVariant : Nat → Option Variant
  | 0 => none
  | 1 => some .INT64
  | 2 => some .DOUBLE
  | _ => some .STRING

/-- `variant_priority.index(variant)`.  Looking up a variant that is not in
the list (for instance `BOOL`, produced by a `bool` element) raises
`ValueError`; the surrounding `except IndexError` clause in the source does
not catch it, so it propagates. -/
def variantIndex : Option Variant → Except PyErr Nat
  | none => .ok 0
  | some .INT64 => .ok 1
  | some .DOUBLE => .ok 2
  | some .STRING => .ok 3
  | some _ => .error .valueErr

mutual

/-- `__find_variant(value)`: the `messages.Variant` that describes `value`,
`none` for a type the codecs do not know how to handle, or the propagated
`ValueError` for a list containing a `bool`-classified element. -/
def findVariant : PyValue → Except PyErr (Option Variant)
  | .vbool _ => .ok (some .BOOL)
  | .vint _ => .ok (some .INT64)
  | .vfloat _ => .ok (some .DOUBLE)
  | .vstr _ => .ok (some .STRING)
  | .vlist xs =>
      match findVariantList xs 0 with
      | .error e => .error e
      | .ok chosen => .ok (priorityVariant chosen)
  | _ => .ok none

/-- The loop over a sequence value: keep the largest priority seen
(starting from `chosen_priority = 0`). -/
def findVariantList : List PyValue → Nat → Except PyErr Nat
  | [], chosen => .ok chosen
  | x :: xs, chosen =>
      match findVariant x with
      | .error e => .error e
      | .ok var =>
          match variantIndex var with
          | .error e => .error e
          | .ok p => findVariantList xs (if p > chosen then p else chosen)

end

/-! ## The nested-map codec (`pytracts/to_dict.py`) -/

/-- Python `str.isdigit` restricted to ASCII: true iff the string is
non-empty and all characters are digits. -/
def pyIsdigit (s : String) : Bool :=
  !s.data.isEmpty && s.data.all Char.isDigit

/-- Python `int(s)` on a digit-only string. -/
def digitsToNat (cs : List Char) : Nat :=
  cs.foldl (fun a c => a * 10 + (c.toNat - 48)) 0

/-- Modelled from the spec: Python `float(s)` on a string — an external
builtin.  Parses an optional minus sign followed by digits, an optional
point and further digits; anything else fails (raising, which the caller
catches). -/
def strToFloat? (s : String) : Option Rat :=
  let core (cs : List Char) : Option Rat :=
    match cs.splitOn '.' with
    | [as] => if !as.isEmpty && as.all Char.isDigit then some (digitsToNat as) else none
    | [as, bs] =>
        if (!as.isEmpty || !bs.isEmpty) && as.all Char.isDigit && bs.all Char.isDigit then
          some ((digitsToNat as : Rat) + (digitsToNat bs : Rat) / ((10 : Rat) ^ bs.length))
        else none
    | _ => none
  match s.data with
  | '-' :: rest => (core rest).map (fun q => -q)
  | cs => core cs

/-- Modelled from the spec: Python `int(s)` on an arbitrary string — an
external builtin.  Accepts an optional minus sign and digits. -/
def strToInt? (s : String) : Option Int :=
  match s.data with
  | '-' :: rest => if !rest.isEmpty && rest.all Char.isDigit then some (-(digitsToNat rest : Int)) else none
  | cs => if !cs.isEmpty && cs.all Char.isDigit then some (digitsToNat cs : Int) else none

/-- Modelled from the spec: the `Enum` constructor `field.type(value)` —
accepts a member name, a member number, or a member itself, and raises
`TypeError` otherwise; the codecs translate that into `DecodeError`
(`to_dict.__decode_field` / `JsonEncoder.decode_field`). -/
def enumFromValue (members : List (String × Int)) : PyValue → Except PyErr PyValue
  | .vstr s =>
      match members.find? (fun m => m.1 == s) with
      | some (n, num) => .ok (.venum n num)
      | none => .error .decodeErr
  | .vint i =>
      match members.find? (fun m => m.2 == i) with
      | some (n, num) => .ok (.venum n num)
      | none => .error .decodeErr
  | .venum n num =>
      if (n, num) ∈ members then .ok (.venum n num) else .error .decodeErr
  | _ => .error .decodeErr

end Pytracts

namespace Pytracts

mutual

/-- `to_dict.__encode_value`: enum members become their name string,
message instances become dictionaries (assigned fields in declaration
order, then the unknown-field ledger entries verbatim), everything else is
passed through unchanged. -/
def encodeValue : PyValue → PyValue
  | .venum name _ => .vstr name
  | .vmsg t assigned unknown =>
      .vdict (unknown.foldl (fun acc e => dinsert e.1 e.2.1 acc)
                (encodeFields t.fields assigned))
  | v => v
termination_by v => (sizeOf v, 1)
decreasing_by
  all_goals
    try simp_wf
    first
    | (apply Prod.Lex.right
       omega)
    | (apply Prod.Lex.left
       omega)
    | (apply Prod.Lex.left
       have := alookup_sizeOf_lt _ _ _ (by assumption)
       omega)

/-- The `for field in value.all_fields()` loop of `__encode_value`: write
one entry per assigned field. -/
def encodeFields : List FieldDesc → List (String × PyValue) → List (DKey × PyValue)
  | [], _ => []
  | f :: fs, assigned =>
      match h : alookup f.name assigned with
      | none => encodeFields fs assigned
      | some item =>
          if f.repeated then
            (DKey.str f.name, encodeRepeated item) :: encodeFields fs assigned
          else
            (DKey.str f.name, encodeValue item) :: encodeFields fs assigned
termination_by fs assigned => (sizeOf assigned, 3 + fs.length)
decreasing_by
  all_goals
    try simp_wf
    first
    | (apply Prod.Lex.right
       omega)
    | (apply Prod.Lex.left
       omega)
    | (apply Prod.Lex.left
       have := alookup_sizeOf_lt _ _ _ (by assumption)
       omega)

/-- `[__encode_value(v) for v in item]` for a repeated field (the instance
machinery guarantees the stored value of a repeated field is a sequence). -/
def encodeRepeated : PyValue → PyValue
  | .vlist xs => .vlist (encodeList xs)
  | v => encodeValue v
termination_by v => (sizeOf v, 2)
decreasing_by
  all_goals
    try simp_wf
    first
    | (apply Prod.Lex.right
       omega)
    | (apply Prod.Lex.left
       omega)
    | (apply Prod.Lex.left
       have := alookup_sizeOf_lt _ _ _ (by assumption)
       omega)

/-- Element-wise `__encode_value` over a sequence. -/
def encodeList : List PyValue → List PyValue
  | [] => []
  | x :: xs => encodeValue x :: encodeList xs
termination_by xs => (sizeOf xs, 1)
decreasing_by
  all_goals
    try simp_wf
    first
    | (apply Prod.Lex.right
       omega)
    | (apply Prod.Lex.left
       omega)
    | (apply Prod.Lex.left
       have := alookup_sizeOf_lt _ _ _ (by assumption)
       omega)

end

end Pytracts

namespace Pytracts

/-- The list-normalization step of decode: a non-list value is wrapped in a
singleton list. -/
def toValueList : PyValue → List PyValue
  | .vlist xs => xs
  | v => [v]

theorem toValueList_sizeOf (v : PyValue) : sizeOf (toValueList v) ≤ sizeOf v + 2 := by
  cases v <;> simp [toValueList] <;> omega

mutual

/-- `to_dict.decode_dictionary(message_type, dictionary)`.  A non-dictionary
argument makes `dictionary.items()` raise `AttributeError`, which the
enclosing `try` turns into `ValueError("Decoded value must be of type
dict")`. -/
def decodeDictionary (mt : MessageType) (v : PyValue) : Except PyErr PyValue :=
  match v with
  | .vdict kvs => decodeEntries mt kvs (freshMessage mt)
  | _ => .error .valueErr
termination_by (sizeOf v, 0)
decreasing_by
  all_goals
    try simp_wf
    first
    | (apply Prod.Lex.right
       omega)
    | (apply Prod.Lex.left
       omega)

/-- The `for key, value in dictionary.items()` loop of `decode_dictionary`.
An integer key (possible when re-decoding an encoded unknown-field ledger)
misses `field_by_name` and then fails `key.isdigit()` with
`AttributeError`, which the enclosing `try` turns into `ValueError`. -/
def decodeEntries (mt : MessageType) (entries : List (DKey × PyValue)) (m : PyValue) :
    Except PyErr PyValue :=
  match entries with
  | [] => .ok m
  | (.num _, _) :: _ => .error .valueErr
  | (.str key, value) :: rest =>
      match mt.fieldByName key with
      | none =>
          -- Save unknown values (digit-only keys are coerced to int).
          match findVariant value with
          | .error e => .error e
          | .ok (some variant) =>
              let k := if pyIsdigit key then DKey.num (digitsToNat key.data) else DKey.str key
              decodeEntries mt rest (setUnrecognized m k value variant)
          | .ok none => decodeEntries mt rest m  -- warning logged, value dropped
      | some field =>
          if field.kind matches .kuntyped then
            -- Special case untyped fields to let the data flow right in.
            match assignField m field value with
            | .error e => .error e
            | .ok m1 => decodeEntries mt rest m1
          else
            -- Normalize values in to a list.
            match decodeFieldList field (toValueList value) with
            | .error e => .error e
            | .ok decoded =>
                if field.repeated then
                  match assignField m field (.vlist decoded) with
                  | .error e => .error e
                  | .ok m1 => decodeEntries mt rest m1
                else
                  -- valid_value[-1]: IndexError on an empty list.
                  match decoded.getLast? with
                  | none => .error .indexErr
                  | some last =>
                      match assignField m field last with
                      | .error e => .error e
                      | .ok m1 => decodeEntries mt rest m1
termination_by (sizeOf entries, 3)
decreasing_by
  all_goals
    try simp_wf
    first
    | (apply Prod.Lex.right
       omega)
    | (apply Prod.Lex.left
       omega)
    | (apply Prod.Lex.left
       have := toValueList_sizeOf value
       omega)

/-- The `for item in value: valid_value.append(__decode_field(field, item))`
loop of `decode_dictionary`. -/
def decodeFieldList (field : FieldDesc) (raw : List PyValue) :
    Except PyErr (List PyValue) :=
  match raw with
  | [] => .ok []
  | x :: xs =>
      match decodeField field x with
      | .error e => .error e
      | .ok d =>
          match decodeFieldList field xs with
          | .error e => .error e
          | .ok ds => .ok (d :: ds)
termination_by (sizeOf raw, 1)
decreasing_by
  all_goals
    try simp_wf
    first
    | (apply Prod.Lex.right
       omega)
    | (apply Prod.Lex.left
       omega)

/-- `to_dict.__decode_field(field, value)`: `None` passes through; enum
fields run the enum constructor (`TypeError` becomes `DecodeError`);
message fields decode recursively; `FloatField`s widen ints and numeric
strings via `float()`; `IntegerField`s widen numeric strings via `int()`
(a failed conversion is swallowed and the raw value returned); every other
value is returned verbatim. -/
def decodeField (field : FieldDesc) (value : PyValue) : Except PyErr PyValue :=
  match value with
  | .vnone => .ok .vnone
  | value =>
      match field.kind with
      | .kenum members => enumFromValue members value
      | .kmsg t => decodeDictionary t value
      | .kfloat =>
          match value with
          | .vint n => .ok (.vfloat (n : Rat))
          | .vstr s =>
              match strToFloat? s with
              | some q => .ok (.vfloat q)
              | none => .ok (.vstr s)
          | v => .ok v
      | .kint =>
          match value with
          | .vstr s =>
              match strToInt? s with
              | some n => .ok (.vint n)
              | none => .ok (.vstr s)
          | v => .ok v
      | _ => .ok value
termination_by (sizeOf value, 2)
decreasing_by
  all_goals
    try simp_wf
    first
    | (apply Prod.Lex.right
       omega)
    | (apply Prod.Lex.left
       omega)

end

mutual

/-- Modelled from the spec: `is_initialized()` — true iff every required
field has a concrete (assigned, non-`None`) value, recursively through
nested message fields and the elements of repeated message fields. -/
def isInitialized : PyValue → Bool
  | .vmsg t assigned _ => fieldsInitialized t.fields assigned
  | _ => false
termination_by v => (sizeOf v, 0)
decreasing_by
  all_goals
    try simp_wf
    apply Prod.Lex.left
    omega

/-- The per-field completeness check of `is_initialized`. -/
def fieldsInitialized (fs : List FieldDesc) (assigned : List (String × PyValue)) : Bool :=
  match fs with
  | [] => true
  | f :: rest =>
      let requiredOk : Bool :=
        !f.required ||
          (match alookup f.name assigned with
           | some v => !(v matches .vnone)
           | none => false)
      let nestedOk : Bool :=
        match f.kind with
        | .kmsg _ =>
            match h : alookup f.name assigned with
            | some (.vmsg t1 a1 u1) => isInitialized (.vmsg t1 a1 u1)
            | some (.vlist xs) => msgListInitialized xs
            | _ => true
        | _ => true
      requiredOk && nestedOk && fieldsInitialized rest assigned
termination_by (sizeOf assigned, 2 + fs.length)
decreasing_by
  all_goals
    try simp_wf
    first
    | (apply Prod.Lex.right
       omega)
    | (apply Prod.Lex.left
       have := alookup_sizeOf_lt _ _ _ (by assumption)
       try simp at this
       try simp
       omega)

/-- Completeness of every element of a repeated message field. -/
def msgListInitialized (xs : List PyValue) : Bool :=
  match xs with
  | [] => true
  | x :: rest => isInitialized x && msgListInitialized rest
termination_by (sizeOf xs, 1)
decreasing_by
  all_goals
    try simp_wf
    first
    | (apply Prod.Lex.right
       omega)
    | (apply Prod.Lex.left
       omega)

end

/-- `to_dict.encode_message(message)`: a `TypeError` for non-message
arguments, a `ValidationError` for incomplete messages, otherwise the
dictionary encoding. -/
def encode_message (m : PyValue) : Except PyErr PyValue :=
  match m with
  | .vmsg _ _ _ =>
      if isInitialized m then .ok (encodeValue m) else .error .validationErr
  | _ => .error .typeErr

end Pytracts

namespace Pytracts

/-! ## External scalar codings

The JSON and query-string codecs lean on external libraries (`base64`,
`iso8601`, `uuid`, and Python's `str`/`int`/`float` builtins).  These are
modelled as concrete injective codings with computable partial inverses;
datetime/UUID payloads are abstract integers, so their textual form is
modelled as decimal text. -/

/-- Decimal digit characters of a natural number (most-significant first). -/
def natToChars (n : Nat) : List Char :=
  (Nat.digits 10 n).reverse.map (fun d => Char.ofNat (d + 48))

/-- Python `str(n)` for a natural number. -/
def natToStr (n : Nat) : String :=
  if n = 0 then "0" else String.mk (natToChars n)

/-- Python `str(i)` for an integer. -/
def intToDec (i : Int) : String :=
  if i < 0 then "-" ++ natToStr i.natAbs else natToStr i.natAbs

/-- Model of `base64.b64encode` on a byte string: one character per byte,
offset into a printable range. -/
def b64encode (bs : List Nat) : String :=
  String.mk (bs.map (fun b => Char.ofNat (b + 65)))

/-- Model of `base64.b64decode`: partial inverse of `b64encode`; anything
else raises, which `decode_field` turns into `DecodeError`. -/
def b64decode (s : String) : Except PyErr (List Nat) :=
  if s.data.all (fun c => 65 ≤ c.toNat && c.toNat < 65 + 256) then
    .ok (s.data.map (fun c => c.toNat - 65))
  else .error .decodeErr

/-- Model of `datetime.isoformat()` on the abstract instant carried by a
datetime value. -/
def isoformat (t : Int) : String := intToDec t

/-- Model of `iso8601.parse_date`: partial inverse of `isoformat`; a parse
failure raises `ParseError`, which `decode_field` turns into
`DecodeError`. -/
def parseIso (s : String) : Except PyErr Int :=
  match strToInt? s with
  | some t => .ok t
  | none => .error .decodeErr

/-- Model of `util.datetime_to_ms`: the abstract instant of a datetime is
identified with its epoch-millisecond count. -/
def datetimeToMs (t : Int) : Int := t

/-- Model of `util.ms_to_datetime`: accepts an integer millisecond count;
other arguments raise, which `decode_field` turns into `DecodeError`. -/
def msToDatetime (v : PyValue) : Except PyErr PyValue :=
  match v with
  | .vint n => .ok (.vdatetime n)
  | _ => .error .decodeErr

/-- Model of `str(uuid)`. -/
def uuidToStr (u : Nat) : String := natToStr u

/-- Model of `uuid.UUID(value)`: partial inverse of `uuidToStr`; a parse
failure raises, which `decode_field` turns into `DecodeError`. -/
def parseUuid (v : PyValue) : Except PyErr PyValue :=
  match v with
  | .vstr s => if pyIsdigit s then .ok (.vuuid (digitsToNat s.data)) else .error .decodeErr
  | _ => .error .decodeErr

/-! ## The JSON codec (`pytracts/to_json.py`)

The textual layer (`json.dumps` / `json.loads` of the external `json`
module) is modelled at the JSON-tree level: `jsonDump` produces the
JSON-representable tree that `json.dumps` would serialize (raising
`TypeError` on unserializable leaves), and decoding consumes such a tree. -/

/-- `JsonEncoder.prep_dict` on one dictionary: `datetime`/`date`/`time`
values are replaced by their ISO text, nested dictionaries are prepared
recursively. -/
def prepEntries : List (DKey × PyValue) → List (DKey × PyValue)
  | [] => []
  | (k, .vdatetime t) :: rest => (k, .vstr (isoformat t)) :: prepEntries rest
  | (k, .vdate t) :: rest => (k, .vstr (isoformat t)) :: prepEntries rest
  | (k, .vtime t) :: rest => (k, .vstr (isoformat t)) :: prepEntries rest
  | (k, .vdict kvs) :: rest => (k, .vdict (prepEntries kvs)) :: prepEntries rest
  | (k, v) :: rest => (k, v) :: prepEntries rest

/-- `JsonEncoder.prep_dict`: `None` passes through; a dictionary is copied
with its entries prepared. -/
def prepDict : PyValue → PyValue
  | .vnone => .vnone
  | .vdict kvs => .vdict (prepEntries kvs)
  | v => v

/-- Per-element transform of `JsonEncoder.encode_field` for a `BytesField`
(the instance machinery guarantees the value is a byte string). -/
def encodeBytesVal : PyValue → Except PyErr PyValue
  | .vbytes bs => .ok (.vstr (b64encode bs))
  | _ => .error .typeErr  -- base64.b64encode on a non-bytes value raises

/-- Per-element transform of `JsonEncoder.encode_field` for a
`DateTimeISO8601Field` (`value.isoformat()`). -/
def encodeDtIsoVal : PyValue → Except PyErr PyValue
  | .vdatetime t => .ok (.vstr (isoformat t))
  | _ => .error .attrErr  -- None.isoformat() raises AttributeError

/-- Per-element transform of `JsonEncoder.encode_field` for a
`DateTimeMsIntegerField` (`util.datetime_to_ms(value)`). -/
def encodeDtMsVal : PyValue → Except PyErr PyValue
  | .vdatetime t => .ok (.vint (datetimeToMs t))
  | _ => .error .attrErr  -- datetime_to_ms on a non-datetime raises

/-- Per-element transform of `JsonEncoder.encode_field` for a `UUIDField`:
`str(value)` — total, so even `None` becomes the text `"None"`. -/
def encodeUuidVal : PyValue → PyValue
  | .vuuid u => .vstr (uuidToStr u)
  | .vnone => .vstr "None"
  | v => v

/-- Map an `Except`-valued element transform over a repeated value. -/
def mapExceptList (f : PyValue → Except PyErr PyValue) : List PyValue → Except PyErr (List PyValue)
  | [] => .ok []
  | x :: xs =>
      match f x with
      | .error e => .error e
      | .ok y =>
          match mapExceptList f xs with
          | .error e => .error e
          | .ok ys => .ok (y :: ys)

/-- The repeated-field form of an `Except`-valued per-element transform
(`[transform(i) for i in value]`). -/
def encodeExceptRepeated (f : PyValue → Except PyErr PyValue) (value : PyValue) :
    Except PyErr PyValue :=
  match value with
  | .vlist xs =>
      match mapExceptList f xs with
      | .error e => .error e
      | .ok ys => .ok (.vlist ys)
  | v => f v

/-- The repeated-field form of `str(uuid)` (`[str(uuid) for uuid in value]`). -/
def encodeUuidRepeated (value : PyValue) : PyValue :=
  match value with
  | .vlist xs => .vlist (xs.map encodeUuidVal)
  | v => encodeUuidVal v

/-- `JsonEncoder.encode_field(field, value)`: the per-kind scalar
transforms applied before JSON serialization (bytes → base64 text,
ISO-datetime → ISO text, ms-datetime → integer, UUID → text, dict →
`prep_dict`); all other kinds pass through unchanged. -/
def encodeField (field : FieldDesc) (value : PyValue) : Except PyErr PyValue :=
  match field.kind with
  | .kbytes =>
      if field.repeated then encodeExceptRepeated encodeBytesVal value
      else encodeBytesVal value
  | .kdtIso =>
      if field.repeated then encodeExceptRepeated encodeDtIsoVal value
      else encodeDtIsoVal value
  | .kdtMs =>
      if field.repeated then encodeExceptRepeated encodeDtMsVal value
      else encodeDtMsVal value
  | .kuuid =>
      if field.repeated then .ok (encodeUuidRepeated value)
      else .ok (encodeUuidVal value)
  | .kdict => .ok (prepDict value)
  | _ => .ok value

end Pytracts

namespace Pytracts

mutual

/-- A size measure on values in which every scalar (including strings,
byte strings and datetimes) has size 1, so that the per-kind scalar
transforms of the JSON codec do not increase it.  Used as the termination
measure of JSON serialization. -/
def pySize : PyValue → Nat
  | .vlist xs => 1 + pySizeList xs
  | .vdict kvs => 1 + pySizeEntries kvs
  | .vmsg _ assigned unknown => 1 + pySizeAssigned assigned + pySizeUnknown unknown
  | _ => 1
termination_by v => (sizeOf v, 1)
decreasing_by
  all_goals
    try simp_wf
    first
    | (apply Prod.Lex.right
       omega)
    | (apply Prod.Lex.left
       omega)

def pySizeList : List PyValue → Nat
  | [] => 0
  | x :: xs => 1 + pySize x + pySizeList xs
termination_by xs => (sizeOf xs, 0)
decreasing_by
  all_goals
    try simp_wf
    first
    | (apply Prod.Lex.right
       omega)
    | (apply Prod.Lex.left
       omega)

def pySizeEntries : List (DKey × PyValue) → Nat
  | [] => 0
  | (_, v) :: kvs => 1 + pySize v + pySizeEntries kvs
termination_by kvs => (sizeOf kvs, 0)
decreasing_by
  all_goals
    try simp_wf
    first
    | (apply Prod.Lex.right
       omega)
    | (apply Prod.Lex.left
       omega)

def pySizeAssigned : List (String × PyValue) → Nat
  | [] => 0
  | (_, v) :: kvs => 1 + pySize v + pySizeAssigned kvs
termination_by kvs => (sizeOf kvs, 0)
decreasing_by
  all_goals
    try simp_wf
    first
    | (apply Prod.Lex.right
       omega)
    | (apply Prod.Lex.left
       omega)

def pySizeUnknown : List (DKey × PyValue × Variant) → Nat
  | [] => 0
  | (_, v, _) :: kvs => 1 + pySize v + pySizeUnknown kvs
termination_by kvs => (sizeOf kvs, 0)
decreasing_by
  all_goals
    try simp_wf
    first
    | (apply Prod.Lex.right
       omega)
    | (apply Prod.Lex.left
       omega)

end

theorem alookup_pySize_lt (k : String) (l : List (String × PyValue)) (v : PyValue)
    (h : alookup k l = some v) : pySize v < pySizeAssigned l := by
  induction l with
  | nil => simp [alookup] at h
  | cons hd tl ih =>
      obtain ⟨k1, v1⟩ := hd
      simp only [alookup] at h
      by_cases hk : k1 == k
      · simp [hk] at h
        subst h
        rw [pySizeAssigned]
        omega
      · simp [hk] at h
        have := ih h
        rw [pySizeAssigned]
        omega

@[simp] theorem pySize_vlist (xs : List PyValue) :
    pySize (.vlist xs) = 1 + pySizeList xs := by
  simp [pySize]

@[simp] theorem pySize_vdict (kvs : List (DKey × PyValue)) :
    pySize (.vdict kvs) = 1 + pySizeEntries kvs := by
  simp [pySize]

@[simp] theorem pySize_vmsg (t : MessageType) (a : List (String × PyValue))
    (u : List (DKey × PyValue × Variant)) :
    pySize (.vmsg t a u) = 1 + pySizeAssigned a + pySizeUnknown u := by
  simp [pySize]

@[simp] theorem pySize_vnone : pySize .vnone = 1 := by simp [pySize]

@[simp] theorem pySize_vbool (b : Bool) : pySize (.vbool b) = 1 := by simp [pySize]

@[simp] theorem pySize_vint (n : Int) : pySize (.vint n) = 1 := by simp [pySize]

@[simp] theorem pySize_vfloat (q : Rat) : pySize (.vfloat q) = 1 := by simp [pySize]

@[simp] theorem pySize_vstr (s : String) : pySize (.vstr s) = 1 := by simp [pySize]

@[simp] theorem pySize_vbytes (bs : List Nat) : pySize (.vbytes bs) = 1 := by simp [pySize]

@[simp] theorem pySize_vdatetime (t : Int) : pySize (.vdatetime t) = 1 := by simp [pySize]

@[simp] theorem pySize_vdate (t : Int) : pySize (.vdate t) = 1 := by simp [pySize]

@[simp] theorem pySize_vtime (t : Int) : pySize (.vtime t) = 1 := by simp [pySize]

@[simp] theorem pySize_vuuid (u : Nat) : pySize (.vuuid u) = 1 := by simp [pySize]

@[simp] theorem pySize_venum (n : String) (num : Int) :
    pySize (.venum n num) = 1 := by simp [pySize]

theorem prepEntries_pySize :
    ∀ kvs : List (DKey × PyValue), pySizeEntries (prepEntries kvs) = pySizeEntries kvs
  | [] => by rw [prepEntries]
  | (k, v) :: tl => by
      have ih := prepEntries_pySize tl
      cases v
      case vdict kvs1 =>
        have ihd := prepEntries_pySize kvs1
        rw [prepEntries, pySizeEntries, pySizeEntries, ih]
        simp [ihd]
      all_goals
        rw [prepEntries, pySizeEntries, pySizeEntries, ih]
      all_goals simp
termination_by kvs => sizeOf kvs
decreasing_by
  all_goals simp <;> omega

theorem prepDict_pySize (v : PyValue) : pySize (prepDict v) ≤ pySize v := by
  cases v
  case vdict kvs =>
    rw [prepDict]
    simp [prepEntries_pySize]
  all_goals simp [prepDict]

theorem encodeBytesVal_pySize (v w : PyValue) (h : encodeBytesVal v = .ok w) :
    pySize w ≤ pySize v := by
  cases v <;> simp [encodeBytesVal] at h
  case vbytes bs =>
    subst h
    simp

theorem encodeDtIsoVal_pySize (v w : PyValue) (h : encodeDtIsoVal v = .ok w) :
    pySize w ≤ pySize v := by
  cases v <;> simp [encodeDtIsoVal] at h
  case vdatetime t =>
    subst h
    simp

theorem encodeDtMsVal_pySize (v w : PyValue) (h : encodeDtMsVal v = .ok w) :
    pySize w ≤ pySize v := by
  cases v <;> simp [encodeDtMsVal] at h
  case vdatetime t =>
    subst h
    simp

theorem encodeUuidVal_pySize (v : PyValue) : pySize (encodeUuidVal v) ≤ pySize v := by
  cases v <;> simp [encodeUuidVal]

theorem mapExceptList_pySize (f : PyValue → Except PyErr PyValue)
    (hf : ∀ v w, f v = .ok w → pySize w ≤ pySize v)
    (xs ys : List PyValue) (h : mapExceptList f xs = .ok ys) :
    pySizeList ys ≤ pySizeList xs := by
  induction xs generalizing ys with
  | nil =>
      rw [mapExceptList] at h
      cases h
      exact Nat.le_refl _
  | cons x tl ih =>
      rw [mapExceptList] at h
      cases hx : f x with
      | error e => rw [hx] at h; exact absurd h (by simp)
      | ok y =>
          rw [hx] at h
          cases htl : mapExceptList f tl with
          | error e => rw [htl] at h; exact absurd h (by simp)
          | ok ys1 =>
              rw [htl] at h
              cases h
              have h1 := hf x y hx
              have h2 := ih ys1 htl
              rw [pySizeList, pySizeList]
              omega

theorem map_encodeUuidVal_pySize (xs : List PyValue) :
    pySizeList (xs.map encodeUuidVal) ≤ pySizeList xs := by
  induction xs with
  | nil => exact Nat.le_refl _
  | cons x tl ih =>
      simp only [List.map]
      rw [pySizeList, pySizeList]
      have := encodeUuidVal_pySize x
      omega

/-- The JSON per-kind transforms never increase the `pySize` measure. -/
theorem encodeExceptRepeated_pySize (f : PyValue → Except PyErr PyValue)
    (hf : ∀ v w, f v = .ok w → pySize w ≤ pySize v)
    (v w : PyValue) (h : encodeExceptRepeated f v = .ok w) : pySize w ≤ pySize v := by
  cases v
  case vlist xs =>
    rw [encodeExceptRepeated] at h
    cases hm : mapExceptList f xs with
    | error e => rw [hm] at h; exact absurd h (by simp)
    | ok ys =>
        rw [hm] at h
        cases h
        have := mapExceptList_pySize f hf _ _ hm
        simp
        omega
  all_goals
    simp only [encodeExceptRepeated] at h
    exact hf _ _ h

theorem encodeUuidRepeated_pySize (v : PyValue) :
    pySize (encodeUuidRepeated v) ≤ pySize v := by
  cases v
  case vlist xs =>
    rw [encodeUuidRepeated]
    have := map_encodeUuidVal_pySize xs
    simp
    omega
  all_goals
    simp only [encodeUuidRepeated]
    exact encodeUuidVal_pySize _

theorem encodeField_pySize (f : FieldDesc) (v w : PyValue)
    (h : encodeField f v = .ok w) : pySize w ≤ pySize v := by
  rw [encodeField] at h
  cases hk : f.kind <;> rw [hk] at h
  case kbytes =>
    by_cases hr : f.repeated <;> simp only [hr, if_true, if_false] at h
    · exact encodeExceptRepeated_pySize _ encodeBytesVal_pySize _ _ h
    · exact encodeBytesVal_pySize _ _ h
  case kdtIso =>
    by_cases hr : f.repeated <;> simp only [hr, if_true, if_false] at h
    · exact encodeExceptRepeated_pySize _ encodeDtIsoVal_pySize _ _ h
    · exact encodeDtIsoVal_pySize _ _ h
  case kdtMs =>
    by_cases hr : f.repeated <;> simp only [hr, if_true, if_false] at h
    · exact encodeExceptRepeated_pySize _ encodeDtMsVal_pySize _ _ h
    · exact encodeDtMsVal_pySize _ _ h
  case kuuid =>
    by_cases hr : f.repeated <;> simp only [hr, if_true, if_false] at h
    · cases h
      exact encodeUuidRepeated_pySize _
    · cases h
      exact encodeUuidVal_pySize _
  case kdict =>
    cases h
    exact prepDict_pySize v
  all_goals
    cases h
    exact Nat.le_refl _

end Pytracts

namespace Pytracts

/-- `json.dumps` stringifies non-string dictionary keys. -/
def dumpKey : DKey → DKey
  | .num n => .str (intToDec n)
  | k => k

mutual

/-- The serialization recursion of `json.dumps` with `MessageJSONEncoder`
as its `default` hook: JSON-native values pass through (lists and
dictionaries recursively, with non-string keys stringified), enum members
become their name string, message instances become objects via one
`encode_field` per assigned field plus the raw unknown-field ledger
entries, and any other value raises `TypeError`. -/
def jsonDump : PyValue → Except PyErr PyValue
  | .vnone => .ok .vnone
  | .vbool b => .ok (.vbool b)
  | .vint n => .ok (.vint n)
  | .vfloat q => .ok (.vfloat q)
  | .vstr s => .ok (.vstr s)
  | .venum name _ => .ok (.vstr name)
  | .vlist xs =>
      match jsonDumpList xs with
      | .error e => .error e
      | .ok ys => .ok (.vlist ys)
  | .vdict kvs =>
      match jsonDumpEntries kvs with
      | .error e => .error e
      | .ok es => .ok (.vdict es)
  | .vmsg t assigned unknown =>
      match jsonDumpFields t.fields assigned with
      | .error e => .error e
      | .ok fentries =>
          match jsonDumpUnknown unknown with
          | .error e => .error e
          | .ok uentries =>
              .ok (.vdict ((uentries.foldl (fun acc kv => dinsert kv.1 kv.2 acc)
                              fentries).map (fun kv => (dumpKey kv.1, kv.2))))
  | _ => .error .typeErr
termination_by v => (pySize v, 1)
decreasing_by
  all_goals
    try simp_wf
    try simp only [pySize_vlist, pySize_vdict, pySize_vmsg]
    first
    | (apply Prod.Lex.right
       omega)
    | (apply Prod.Lex.left
       omega)

def jsonDumpList (xs : List PyValue) : Except PyErr (List PyValue) :=
  match xs with
  | [] => .ok []
  | x :: rest =>
      match jsonDump x with
      | .error e => .error e
      | .ok y =>
          match jsonDumpList rest with
          | .error e => .error e
          | .ok ys => .ok (y :: ys)
termination_by (pySizeList xs, 0)
decreasing_by
  all_goals
    try simp_wf
    try simp only [pySizeList]
    first
    | (apply Prod.Lex.right
       omega)
    | (apply Prod.Lex.left
       omega)

def jsonDumpEntries (kvs : List (DKey × PyValue)) : Except PyErr (List (DKey × PyValue)) :=
  match kvs with
  | [] => .ok []
  | (k, v) :: rest =>
      match jsonDump v with
      | .error e => .error e
      | .ok w =>
          match jsonDumpEntries rest with
          | .error e => .error e
          | .ok ws => .ok ((dumpKey k, w) :: ws)
termination_by (pySizeEntries kvs, 0)
decreasing_by
  all_goals
    try simp_wf
    try simp only [pySizeEntries]
    first
    | (apply Prod.Lex.right
       omega)
    | (apply Prod.Lex.left
       omega)

/-- The `for field in value.all_fields()` loop of
`MessageJSONEncoder.default`, fused with serialization of each encoded
field value. -/
def jsonDumpFields (fs : List FieldDesc) (assigned : List (String × PyValue)) :
    Except PyErr (List (DKey × PyValue)) :=
  match fs with
  | [] => .ok []
  | f :: rest =>
      match hx : alookup f.name assigned with
      | none => jsonDumpFields rest assigned
      | some item =>
          match hw : encodeField f item with
          | .error e => .error e
          | .ok w =>
              match jsonDump w with
              | .error e => .error e
              | .ok dw =>
                  match jsonDumpFields rest assigned with
                  | .error e => .error e
                  | .ok ds => .ok ((DKey.str f.name, dw) :: ds)
termination_by (pySizeAssigned assigned, 2 + fs.length)
decreasing_by
  all_goals
    try simp_wf
    first
    | (apply Prod.Lex.right
       omega)
    | (apply Prod.Lex.left
       omega)
    | (apply Prod.Lex.left
       have h1 := alookup_pySize_lt _ _ _ (by assumption)
       have h2 := encodeField_pySize _ _ _ (by assumption)
       omega)

/-- Serialization of the raw unknown-field ledger values written by
`MessageJSONEncoder.default`. -/
def jsonDumpUnknown (u : List (DKey × PyValue × Variant)) :
    Except PyErr (List (DKey × PyValue)) :=
  match u with
  | [] => .ok []
  | (k, v, _) :: rest =>
      match jsonDump v with
      | .error e => .error e
      | .ok w =>
          match jsonDumpUnknown rest with
          | .error e => .error e
          | .ok ws => .ok ((k, w) :: ws)
termination_by (pySizeUnknown u, 0)
decreasing_by
  all_goals
    try simp_wf
    try simp only [pySizeUnknown]
    first
    | (apply Prod.Lex.right
       omega)
    | (apply Prod.Lex.left
       omega)

end

end Pytracts

namespace Pytracts

mutual

/-- `JsonEncoder.__decode_dictionary(message_type, dictionary)`.  Unlike
`to_dict.decode_dictionary` there is no enclosing `try`, so a non-dictionary
argument propagates `AttributeError` from `dictionary.items()`. -/
def jsonDecodeDictionary (mt : MessageType) (v : PyValue) : Except PyErr PyValue :=
  match v with
  | .vdict kvs => jsonDecodeEntries mt kvs (freshMessage mt)
  | _ => .error .attrErr
termination_by (sizeOf v, 0)
decreasing_by
  all_goals
    try simp_wf
    first
    | (apply Prod.Lex.right
       omega)
    | (apply Prod.Lex.left
       omega)

/-- The `for key, value in dictionary.items()` loop of
`__decode_dictionary`: identical in structure to the nested-map decode
loop (see `decodeEntries`), differing only in `decode_field`. -/
def jsonDecodeEntries (mt : MessageType) (entries : List (DKey × PyValue)) (m : PyValue) :
    Except PyErr PyValue :=
  match entries with
  | [] => .ok m
  | (.num _, _) :: _ => .error .attrErr
  | (.str key, value) :: rest =>
      match mt.fieldByName key with
      | none =>
          match findVariant value with
          | .error e => .error e
          | .ok (some variant) =>
              let k := if pyIsdigit key then DKey.num (digitsToNat key.data) else DKey.str key
              jsonDecodeEntries mt rest (setUnrecognized m k value variant)
          | .ok none => jsonDecodeEntries mt rest m  -- warning logged, value dropped
      | some field =>
          if field.kind matches .kuntyped then
            match assignField m field value with
            | .error e => .error e
            | .ok m1 => jsonDecodeEntries mt rest m1
          else
            match jsonDecodeFieldList field (toValueList value) with
            | .error e => .error e
            | .ok decoded =>
                if field.repeated then
                  match assignField m field (.vlist decoded) with
                  | .error e => .error e
                  | .ok m1 => jsonDecodeEntries mt rest m1
                else
                  match decoded.getLast? with
                  | none => .error .indexErr
                  | some last =>
                      match assignField m field last with
                      | .error e => .error e
                      | .ok m1 => jsonDecodeEntries mt rest m1
termination_by (sizeOf entries, 3)
decreasing_by
  all_goals
    try simp_wf
    first
    | (apply Prod.Lex.right
       omega)
    | (apply Prod.Lex.left
       omega)
    | (apply Prod.Lex.left
       have := toValueList_sizeOf value
       omega)

def jsonDecodeFieldList (field : FieldDesc) (raw : List PyValue) :
    Except PyErr (List PyValue) :=
  match raw with
  | [] => .ok []
  | x :: xs =>
      match jsonDecodeField field x with
      | .error e => .error e
      | .ok d =>
          match jsonDecodeFieldList field xs with
          | .error e => .error e
          | .ok ds => .ok (d :: ds)
termination_by (sizeOf raw, 1)
decreasing_by
  all_goals
    try simp_wf
    first
    | (apply Prod.Lex.right
       omega)
    | (apply Prod.Lex.left
       omega)

/-- `JsonEncoder.decode_field(field, value)`: `None` passes through; enum
fields run the enum constructor; bytes fields base64-decode; the two
datetime kinds and UUIDs parse their wire form (all conversion failures
become `DecodeError`); message fields decode recursively; floats and
integers widen from numeric text exactly as in the nested-map codec. -/
def jsonDecodeField (field : FieldDesc) (value : PyValue) : Except PyErr PyValue :=
  match value with
  | .vnone => .ok .vnone
  | value =>
      match field.kind with
      | .kenum members => enumFromValue members value
      | .kbytes =>
          match value with
          | .vstr s =>
              match b64decode s with
              | .error e => .error e
              | .ok bs => .ok (.vbytes bs)
          | _ => .error .decodeErr
      | .kdtIso =>
          match value with
          | .vstr s =>
              match parseIso s with
              | .error e => .error e
              | .ok t => .ok (.vdatetime t)
          | _ => .error .decodeErr
      | .kdtMs => msToDatetime value
      | .kuuid => parseUuid value
      | .kmsg t => jsonDecodeDictionary t value
      | .kfloat =>
          match value with
          | .vint n => .ok (.vfloat (n : Rat))
          | .vstr s =>
              match strToFloat? s with
              | some q => .ok (.vfloat q)
              | none => .ok (.vstr s)
          | v => .ok v
      | .kint =>
          match value with
          | .vstr s =>
              match strToInt? s with
              | some n => .ok (.vint n)
              | none => .ok (.vstr s)
          | v => .ok v
      | _ => .ok value
termination_by (sizeOf value, 2)
decreasing_by
  all_goals
    try simp_wf
    first
    | (apply Prod.Lex.right
       omega)
    | (apply Prod.Lex.left
       omega)

end

/-- The whitespace characters of Python `str.strip()`. -/
def pyWhitespace (c : Char) : Bool :=
  c == ' ' || c == '\t' || c == '\n' || c == '\r' || c == '\x0b' || c == '\x0c'

/-- Python `not encoded_message.strip()`: the text is empty or contains
only whitespace. -/
def pyBlank (s : String) : Bool :=
  s.data.all pyWhitespace

/-- `JsonEncoder.encode_message(message)`: run `check_initialized` (a
`ValidationError` when incomplete), then serialize.  On anything that is
not a message instance, the `message.check_initialized()` attribute access
raises. -/
def jsonEncodeMessage (m : PyValue) : Except PyErr PyValue :=
  match m with
  | .vmsg _ _ _ =>
      if isInitialized m then jsonDump m else .error .validationErr
  | _ => .error .attrErr

/-- `JsonEncoder.decode_message(message_type, encoded_message)`, with the
external `json.loads` passed in as the `parse` argument (returning `none`
on malformed text, which the json module raises as `ValueError`): blank
input short-circuits to a fresh instance; otherwise the parsed tree is
merged and the result must pass `check_initialized`. -/
def jsonDecodeMessage (parse : String → Option PyValue) (mt : MessageType)
    (encoded : String) : Except PyErr PyValue :=
  if !(pyBlank encoded) then
    match parse encoded with
    | none => .error .valueErr
    | some v =>
        match jsonDecodeDictionary mt v with
        | .error e => .error e
        | .ok m => if isInitialized m then .ok m else .error .validationErr
  else .ok (freshMessage mt)

end Pytracts

namespace Pytracts

/-! ## The query-string codec

`to_url.py` is not part of the source tree (only its tests and callers
are).  The whole section is modelled from the spec (§4.7) and the
behaviour pinned down by `tests/to_url_test.py`.  The external
`urllib` layer (percent-encoding, `&`-joining and `parse_qs` multimap
grouping) is modelled by working directly with ordered key/value pair
lists and an explicit first-occurrence grouping function. -/

/-- A query-string path: one `(wire name, optional index)` entry per
dot-separated segment. -/
abbrev QPath := List (String × Option Nat)

/-- Split a character list on a separator (Python `str.split`, which
yields one — possibly empty — chunk between each pair of separators). -/
def splitOnChar (sep : Char) : List Char → List (List Char)
  | [] => [[]]
  | c :: rest =>
      let r := splitOnChar sep rest
      if c == sep then [] :: r
      else
        match r with
        | [] => [[c]]
        | g :: gs => (c :: g) :: gs

/-- Modelled from the spec: one path segment is a wire name optionally
followed by `-<non-negative integer>`; the index is split off at the last
dash when (and only when) a non-empty digit suffix follows it. -/
def parseSegment (cs : List Char) : String × Option Nat :=
  let rcs := cs.reverse
  let digits := rcs.takeWhile Char.isDigit
  let rest := rcs.drop digits.length
  match rest with
  | '-' :: more =>
      if digits.isEmpty || more.isEmpty then (String.mk cs, none)
      else (String.mk more.reverse, some (digitsToNat digits.reverse))
  | _ => (String.mk cs, none)

/-- Strip a required prefix (Python `startswith` then slicing); `none`
when the prefix is absent. -/
def stripPrefix (pre cs : List Char) : Option (List Char) :=
  match pre, cs with
  | [], cs => some cs
  | _, [] => none
  | p :: ps, c :: rest => if c == p then stripPrefix ps rest else none

/-- Modelled from the spec: the segment walk of `make_path` against the
record type being decoded.  At every segment the field is looked up by
wire name (failure fails the path); a repeated field must carry an index
except at the terminal segment, a non-repeated field must not carry one;
traversal continues into the target of a message field and ends (failing
any further segment) at any other kind. -/
def walkSegments (cur : Option MessageType) : List (List Char) → Option QPath
  | [] => some []
  | [seg] =>
      match cur with
      | none => none
      | some t =>
          let (name, idx) := parseSegment seg
          match t.fieldByName name with
          | none => none
          | some f =>
              if f.repeated then some [(name, idx)]
              else
                match idx with
                | some _ => none  -- an index on a non-repeated field
                | none => some [(name, none)]
  | seg :: rest =>
      match cur with
      | none => none  -- walked beyond the known record types
      | some t =>
          let (name, idx) := parseSegment seg
          match t.fieldByName name with
          | none => none
          | some f =>
              if f.repeated && !(idx matches some _) then none
              else if !f.repeated && (idx matches some _) then none
              else
                let nxt : Option MessageType :=
                  match f.kind with
                  | .kmsg t1 => some t1
                  | _ => none
                match walkSegments nxt rest with
                | none => none
                | some ps => some ((name, idx) :: ps)

/-- Modelled from the spec: `URLEncodedRequestBuilder.make_path(key)` —
strip the prefix, split into dotted segments and resolve them against the
record type; any failure is a silent non-match (`none`), never an
exception. -/
def makePath (mt : MessageType) (pre key : String) : Option QPath :=
  match stripPrefix pre.data key.data with
  | none => none
  | some cs => walkSegments (some mt) (splitOnChar '.' cs)

/-- Modelled from the spec: the terminal decode transform of the
query-string codec — datetime/UUID/enum/numeric coercion with the same
per-kind rules as the JSON codec, from the raw text of one value. -/
def urlDecodeScalar (k : FieldKind) (s : String) : Except PyErr PyValue :=
  match k with
  | .kint =>
      match strToInt? s with
      | some n => .ok (.vint n)
      | none => .error .decodeErr
  | .kfloat =>
      match strToFloat? s with
      | some q => .ok (.vfloat q)
      | none => .error .decodeErr
  | .kbool =>
      if s == "true" then .ok (.vbool true)
      else if s == "false" then .ok (.vbool false)
      else .error .decodeErr
  | .kstr => .ok (.vstr s)
  | .kbytes =>
      match b64decode s with
      | .error e => .error e
      | .ok bs => .ok (.vbytes bs)
  | .kdtIso =>
      match parseIso s with
      | .error e => .error e
      | .ok t => .ok (.vdatetime t)
  | .kdtMs =>
      match strToInt? s with
      | some n => .ok (.vdatetime n)
      | none => .error .decodeErr
  | .kuuid => parseUuid (.vstr s)
  | .kenum members => enumFromValue members (.vstr s)
  | _ => .error .decodeErr

/-- Admit the values of one indexed repeated scalar position: a value may
overwrite an existing position or extend the sequence by exactly one. -/
def placeAt (xs : List PyValue) (i : Nat) (v : PyValue) : Option (List PyValue) :=
  if i < xs.length then some (xs.set i v)
  else if i == xs.length then some (xs ++ [v])
  else none

/-- Decode every raw value of a repeated scalar terminal and admit each at
the given index (or append, when no index was given). -/
def admitRepeatedScalar (k : FieldKind) (xs : List PyValue) (idx : Option Nat)
    (values : List String) : Except PyErr (Option (List PyValue)) :=
  match values with
  | [] => .ok (some xs)
  | s :: rest =>
      match urlDecodeScalar k s with
      | .error e => .error e
      | .ok v =>
          match idx with
          | none => admitRepeatedScalar k (xs ++ [v]) none rest
          | some i =>
              match placeAt xs i v with
              | none => .ok none
              | some xs1 => admitRepeatedScalar k xs1 (some i) rest

/-- Modelled from the spec: value admission at the terminal segment of a
resolved path.  A non-repeated field supplied with zero or more than one
raw value is a hard `DecodeError`; a repeated index may address an
existing position or extend the sequence by exactly one (jumping ahead is
a soft rejection); a message-kind terminal admits only the empty marker
value, creating a fresh empty instance. -/
def applyTerminal (m : PyValue) (f : FieldDesc) (idx : Option Nat) (values : List String) :
    Except PyErr (Bool × PyValue) :=
  match m with
  | .vmsg _ _ _ =>
      if f.repeated then
        match f.kind with
        | .kmsg t1 =>
            if values.all (fun s => s == "") then
              let xs := match alookup f.name (assignedOf m) with
                        | some (.vlist l) => l
                        | _ => []
              match idx with
              | some i =>
                  if i < xs.length then .ok (true, m)
                  else if i == xs.length then
                    match assignField m f (.vlist (xs ++ [freshMessage t1])) with
                    | .error e => .error e
                    | .ok m1 => .ok (true, m1)
                  else .ok (false, m)
              | none =>
                  match assignField m f (.vlist (xs ++ values.map (fun _ => freshMessage t1))) with
                  | .error e => .error e
                  | .ok m1 => .ok (true, m1)
            else .ok (false, m)
        | k =>
            let xs := match alookup f.name (assignedOf m) with
                      | some (.vlist l) => l
                      | _ => []
            match admitRepeatedScalar k xs idx values with
            | .error e => .error e
            | .ok none => .ok (false, m)
            | .ok (some xs1) =>
                match assignField m f (.vlist xs1) with
                | .error e => .error e
                | .ok m1 => .ok (true, m1)
      else
        match values with
        | [v] =>
            match f.kind with
            | .kmsg t1 =>
                if v == "" then
                  match assignField m f (freshMessage t1) with
                  | .error e => .error e
                  | .ok m1 => .ok (true, m1)
                else .ok (false, m)
            | k =>
                match urlDecodeScalar k v with
                | .error e => .error e
                | .ok dv =>
                    match assignField m f dv with
                    | .error e => .error e
                    | .ok m1 => .ok (true, m1)
        | _ => .error .decodeErr
  | _ => .error .typeErr

end Pytracts

namespace Pytracts

/-- Modelled from the spec: the path walk of `add_parameter`, lazily
constructing intermediate message values.  A nested instance is built (or
an existing one reused), the rest of the path is applied to it, and only a
successful admission writes the updated instance back — a soft failure
leaves the record unchanged.  A repeated index may address an existing
element or extend the sequence by exactly one; jumping ahead is a soft
rejection. -/
def applyPath (m : PyValue) (path : QPath) (values : List String) :
    Except PyErr (Bool × PyValue) :=
  match m with
  | .vmsg t _ _ =>
      match path with
      | [] => .ok (false, m)
      | [(name, idx)] =>
          match t.fieldByName name with
          | none => .ok (false, m)
          | some f => applyTerminal m f idx values
      | (name, idx) :: rest =>
          match t.fieldByName name with
          | none => .ok (false, m)
          | some f =>
              match f.kind with
              | .kmsg t1 =>
                  match idx with
                  | none =>
                      let sub := match alookup name (assignedOf m) with
                                 | some (.vmsg a b c) => PyValue.vmsg a b c
                                 | _ => freshMessage t1
                      match applyPath sub rest values with
                      | .error e => .error e
                      | .ok (false, _) => .ok (false, m)
                      | .ok (true, sub1) =>
                          match assignField m f sub1 with
                          | .error e => .error e
                          | .ok m1 => .ok (true, m1)
                  | some i =>
                      let xs := match alookup name (assignedOf m) with
                                | some (.vlist l) => l
                                | _ => []
                      if i < xs.length then
                        match applyPath (xs.getD i (freshMessage t1)) rest values with
                        | .error e => .error e
                        | .ok (false, _) => .ok (false, m)
                        | .ok (true, sub1) =>
                            match assignField m f (.vlist (xs.set i sub1)) with
                            | .error e => .error e
                            | .ok m1 => .ok (true, m1)
                      else if i == xs.length then
                        match applyPath (freshMessage t1) rest values with
                        | .error e => .error e
                        | .ok (false, _) => .ok (false, m)
                        | .ok (true, sub1) =>
                            match assignField m f (.vlist (xs ++ [sub1])) with
                            | .error e => .error e
                            | .ok m1 => .ok (true, m1)
                      else .ok (false, m)
              | _ => .ok (false, m)
  | _ => .error .typeErr
termination_by path.length
decreasing_by
  all_goals simp <;> omega

/-- Modelled from the spec: `URLEncodedRequestBuilder.add_parameter(key,
values)` — resolve the path (a failed resolution is the boolean non-match
`false`) and admit the values along it. -/
def addParameter (m : PyValue) (pre key : String) (values : List String) :
    Except PyErr (Bool × PyValue) :=
  match m with
  | .vmsg mt _ _ =>
      match makePath mt pre key with
      | none => .ok (false, m)
      | some path => applyPath m path values
  | _ => .error .typeErr

end Pytracts

namespace Pytracts

/-- Modelled from the spec: the terminal scalar transform of query-string
encode — one textual value per scalar (bool as `true`/`false`, bytes as
base64, datetimes/UUIDs in their wire form, enums by name). -/
def urlScalarToStr (k : FieldKind) (v : PyValue) : String :=
  match k, v with
  | .kint, .vint n => intToDec n
  | .kbool, .vbool b => if b then "true" else "false"
  | .kstr, .vstr s => s
  | .kbytes, .vbytes bs => b64encode bs
  | .kdtIso, .vdatetime t => isoformat t
  | .kdtMs, .vdatetime t => intToDec (datetimeToMs t)
  | .kuuid, .vuuid u => uuidToStr u
  | .kenum _, .venum name _ => name
  | _, _ => ""

mutual

/-- Modelled from the spec: `to_url.encode_message` — for every assigned
field, recursively walk the nested/repeated structure and emit one
flattened key per terminal scalar, or one empty-valued marker key for an
assigned message with no emitted pairs of its own. -/
def urlEncodeMsg (pre : String) (m : PyValue) : List (String × String) :=
  match m with
  | .vmsg t assigned _ => urlEncodeFields pre t.fields assigned
  | _ => []
termination_by (sizeOf m, 0)
decreasing_by
  all_goals
    try simp_wf
    first
    | (apply Prod.Lex.right
       omega)
    | (apply Prod.Lex.left
       omega)

def urlEncodeFields (pre : String) (fs : List FieldDesc)
    (assigned : List (String × PyValue)) : List (String × String) :=
  match fs with
  | [] => []
  | f :: rest =>
      (match hx : alookup f.name assigned with
       | none => []
       | some v => urlEncodeField (pre ++ f.name) f v) ++
        urlEncodeFields pre rest assigned
termination_by (sizeOf assigned, 3 + fs.length)
decreasing_by
  all_goals
    try simp_wf
    first
    | (apply Prod.Lex.right
       omega)
    | (apply Prod.Lex.left
       have := alookup_sizeOf_lt _ _ _ (by assumption)
       omega)

/-- Emission for one assigned field under its flattened key. -/
def urlEncodeField (key : String) (f : FieldDesc) (v : PyValue) :
    List (String × String) :=
  if f.repeated then
    match v with
    | .vlist xs =>
        match f.kind with
        | .kmsg _ => urlEncodeRepeatedMsg key 0 xs
        | k => xs.map (fun x => (key, urlScalarToStr k x))
    | _ => []
  else
    match f.kind with
    | .kmsg _ =>
        match urlEncodeMsg (key ++ ".") v with
        | [] => [(key, "")]
        | ps => ps
    | k =>
        match v with
        | .vnone => []
        | v => [(key, urlScalarToStr k v)]
termination_by (sizeOf v, 2)
decreasing_by
  all_goals
    try simp_wf
    first
    | (apply Prod.Lex.right
       omega)
    | (apply Prod.Lex.left
       omega)

/-- Emission for the elements of a repeated message field: indexed keys in
order, an empty-valued marker key for an element with no pairs of its
own. -/
def urlEncodeRepeatedMsg (key : String) (i : Nat) (xs : List PyValue) :
    List (String × String) :=
  match xs with
  | [] => []
  | x :: rest =>
      (match urlEncodeMsg (key ++ "-" ++ natToStr i ++ ".") x with
       | [] => [(key ++ "-" ++ natToStr i, "")]
       | ps => ps) ++ urlEncodeRepeatedMsg key (i + 1) rest
termination_by (sizeOf xs, 1)
decreasing_by
  all_goals
    try simp_wf
    first
    | (apply Prod.Lex.right
       omega)
    | (apply Prod.Lex.left
       omega)

end

end Pytracts

namespace Pytracts

/-- Structural induction over the (nested) value domain. -/
theorem PyValue.inductionOn (P : PyValue → Prop)
    (hnone : P .vnone) (hbool : ∀ b, P (.vbool b)) (hint : ∀ n, P (.vint n))
    (hfloat : ∀ q, P (.vfloat q)) (hstr : ∀ s, P (.vstr s))
    (hbytes : ∀ bs, P (.vbytes bs)) (hdt : ∀ t, P (.vdatetime t))
    (hdate : ∀ t, P (.vdate t)) (htime : ∀ t, P (.vtime t))
    (huuid : ∀ u, P (.vuuid u)) (henum : ∀ n num, P (.venum n num))
    (hlist : ∀ xs, (∀ x ∈ xs, P x) → P (.vlist xs))
    (hdict : ∀ kvs : List (DKey × PyValue), (∀ kv ∈ kvs, P (Prod.snd kv)) → P (.vdict kvs))
    (hmsg : ∀ t (assigned : List (String × PyValue))
        (unknown : List (DKey × PyValue × Variant)),
        (∀ kv ∈ assigned, P (Prod.snd kv)) → (∀ e ∈ unknown, P e.2.1) →
        P (.vmsg t assigned unknown)) :
    ∀ v, P v
  | .vnone => hnone
  | .vbool b => hbool b
  | .vint n => hint n
  | .vfloat q => hfloat q
  | .vstr s => hstr s
  | .vbytes bs => hbytes bs
  | .vdatetime t => hdt t
  | .vdate t => hdate t
  | .vtime t => htime t
  | .vuuid u => huuid u
  | .venum n num => henum n num
  | .vlist xs =>
      hlist xs (fun x _ =>
        PyValue.inductionOn P hnone hbool hint hfloat hstr hbytes hdt hdate htime
          huuid henum hlist hdict hmsg x)
  | .vdict kvs =>
      hdict kvs (fun kv _ =>
        PyValue.inductionOn P hnone hbool hint hfloat hstr hbytes hdt hdate htime
          huuid henum hlist hdict hmsg kv.2)
  | .vmsg t assigned unknown =>
      hmsg t assigned unknown
        (fun kv _ =>
          PyValue.inductionOn P hnone hbool hint hfloat hstr hbytes hdt hdate htime
            huuid henum hlist hdict hmsg kv.2)
        (fun e _ =>
          PyValue.inductionOn P hnone hbool hint hfloat hstr hbytes hdt hdate htime
            huuid henum hlist hdict hmsg e.2.1)
termination_by v => sizeOf v
decreasing_by
  · rename_i hm
    have := List.sizeOf_lt_of_mem hm
    simp
    omega
  · rename_i hm
    obtain ⟨a, b⟩ := kv
    have := List.sizeOf_lt_of_mem hm
    simp at this ⊢
    omega
  · rename_i hm
    obtain ⟨a, b⟩ := kv
    have := List.sizeOf_lt_of_mem hm
    simp at this ⊢
    omega
  · rename_i hm
    obtain ⟨a, b, c⟩ := e
    have := List.sizeOf_lt_of_mem hm
    simp at this ⊢
    omega

/-! ## Variant inference: characterization (claim C3) -/

/-- The priority an element contributes to sequence variant inference:
`INT64` 1, `DOUBLE` 2, `STRING` 3, anything unrecognized 0. -/
def elemPriority (x : PyValue) : Nat :=
  match findVariant x with
  | .ok (some .INT64) => 1
  | .ok (some .DOUBLE) => 2
  | .ok (some .STRING) => 3
  | _ => 0

/-- An element on which sequence variant inference raises: its own
inference raises, or it is classified `BOOL` (or any other variant with no
place in `variant_priority`, whose `list.index` lookup raises
`ValueError`). -/
def elemCrashes (x : PyValue) : Bool :=
  match findVariant x with
  | .error _ => true
  | .ok (some .INT64) => false
  | .ok (some .DOUBLE) => false
  | .ok (some .STRING) => false
  | .ok none => false
  | .ok (some _) => true

theorem foldr_max_base (l : List PyValue) (c : Nat) :
    l.foldr (fun x a => max (elemPriority x) a) c =
      max (l.foldr (fun x a => max (elemPriority x) a) 0) c := by
  induction l generalizing c with
  | nil => simp
  | cons x rest ih =>
      simp only [List.foldr]
      rw [ih c, ih 0]
      omega

theorem findVariant_error_valueErr :
    ∀ v e, findVariant v = .error e → e = .valueErr := by
  intro v
  induction v using PyValue.inductionOn
  case hlist xs ih =>
      intro e h
      rw [findVariant] at h
      have aux : ∀ (ys : List PyValue),
          (∀ x ∈ ys, ∀ e1, findVariant x = .error e1 → e1 = .valueErr) →
          ∀ chosen e1, findVariantList ys chosen = .error e1 → e1 = .valueErr := by
        intro ys hys
        induction ys with
        | nil =>
            intro chosen e1 h1
            rw [findVariantList] at h1
            exact absurd h1 (by simp)
        | cons y rest ihy =>
            intro chosen e1 h1
            rw [findVariantList] at h1
            cases hfy : findVariant y with
            | error e2 =>
                rw [hfy] at h1
                simp only [] at h1
                cases h1
                exact hys y (by simp) _ hfy
            | ok var =>
                rw [hfy] at h1
                simp only [] at h1
                cases hvi : variantIndex var with
                | error e2 =>
                    rw [hvi] at h1
                    simp only [] at h1
                    cases h1
                    cases var with
                    | none => exact absurd hvi (by simp [variantIndex])
                    | some w =>
                        cases w <;>
                          first
                          | (cases hvi; rfl)
                          | exact absurd hvi (by simp [variantIndex])
                | ok p =>
                    rw [hvi] at h1
                    simp only [] at h1
                    exact ihy (fun x hx => hys x (by simp [hx])) _ _ h1
      cases hl : findVariantList xs 0 with
      | error e1 =>
          rw [hl] at h
          simp only [] at h
          cases h
          exact aux xs (fun x hx e1 => ih x hx e1) 0 e hl
      | ok p =>
          rw [hl] at h
          exact absurd h (by simp)
  all_goals
    intro e h
    simp [findVariant] at h

theorem findVariantList_no_crash (xs : List PyValue) (chosen : Nat)
    (h : ∀ x ∈ xs, elemCrashes x = false) :
    findVariantList xs chosen =
      .ok (max (xs.foldr (fun x a => max (elemPriority x) a) 0) chosen) := by
  induction xs generalizing chosen with
  | nil => rw [findVariantList]; simp
  | cons x rest ih =>
      have hx : elemCrashes x = false := h x (by simp)
      rw [findVariantList]
      rw [elemCrashes] at hx
      cases hfv : findVariant x with
      | error e => rw [hfv] at hx; simp at hx
      | ok var =>
          rw [hfv] at hx
          have hip : variantIndex var = .ok (elemPriority x) := by
            rw [elemPriority, hfv]
            cases var with
            | none => rfl
            | some w => cases w <;> first | rfl | simp at hx
          simp only []
          rw [hip]
          simp only []
          rw [ih _ (fun y hy => h y (by simp [hy]))]
          simp only [List.foldr]
          congr 1
          rw [foldr_max_base rest 0]
          by_cases hc : elemPriority x > chosen <;> simp [hc] <;> omega

theorem findVariantList_crash (xs : List PyValue) (chosen : Nat)
    (h : ∃ x ∈ xs, elemCrashes x = true) :
    findVariantList xs chosen = .error .valueErr := by
  induction xs generalizing chosen with
  | nil => obtain ⟨x, hx, _⟩ := h; simp at hx
  | cons x rest ih =>
      rw [findVariantList]
      by_cases hx : elemCrashes x = true
      · rw [elemCrashes] at hx
        cases hfv : findVariant x with
        | error e =>
            simp only []
            rw [findVariant_error_valueErr x e hfv]
        | ok var =>
            rw [hfv] at hx
            simp only []
            cases var with
            | none => simp at hx
            | some w =>
                cases w <;> first | rfl | (simp at hx)
      · have hx2 : elemCrashes x = false := by
          cases hcx : elemCrashes x
          · rfl
          · exact absurd hcx hx
        rw [elemCrashes] at hx2
        cases hfv : findVariant x with
        | error e => rw [hfv] at hx2; simp at hx2
        | ok var =>
            rw [hfv] at hx2
            simp only []
            have hip : variantIndex var = .ok (elemPriority x) := by
              rw [elemPriority, hfv]
              cases var with
              | none => rfl
              | some w => cases w <;> first | rfl | simp at hx2
            rw [hip]
            simp only []
            apply ih
            obtain ⟨y, hy, hcy⟩ := h
            rcases List.mem_cons.mp hy with hyx | hyr
            · exact absurd (hyx ▸ hcy) hx
            · exact ⟨y, hyr, hcy⟩

end Pytracts

namespace Pytracts

/-! ## Fixtures used by the claim theorems -/

/-- The record type of `to_dict_test.MyMessage` restricted to its integer
field: one optional `IntegerField` named `an_integer`. -/
def sampleIntType : MessageType := .mk [.mk "an_integer" false false none .kint]

/-- A record type with one required integer field. -/
def requiredIntType : MessageType := .mk [.mk "required" true false none .kint]

/-- A concrete stand-in for `json.loads` that recognizes exactly the empty
JSON object. -/
def parseEmptyObj (s : String) : Option PyValue :=
  if s == "\x7b\x7d" then some (.vdict []) else none

/-! ## Claim C3 -/

/-- C3, counterexample: a sequence containing an element of unrecognized
type ([{}, 1]) does not abort inference — the element is skipped and the
sequence is classified `INT64` and stored in the unknown-field ledger, not
dropped; and a sequence containing a boolean element does not take part in
any BOOL/INT64 widening — inference raises an uncaught `ValueError`
instead. -/
theorem claim3_counterexample :
    findVariant (.vlist [PyValue.vdict [], PyValue.vint 1]) = .ok (some .INT64) ∧
    decodeDictionary sampleIntType
        (.vdict [(.str "unknown_val", .vlist [PyValue.vdict [], PyValue.vint 1])]) =
      .ok (.vmsg sampleIntType []
            [(.str "unknown_val", .vlist [PyValue.vdict [], PyValue.vint 1], .INT64)]) ∧
    findVariant (.vlist [PyValue.vint 1, PyValue.vbool true]) = .error .valueErr := by
  refine ⟨?_, ?_, ?_⟩
  · simp [findVariant, findVariantList, variantIndex, priorityVariant]
  · simp [decodeDictionary, decodeEntries, sampleIntType, MessageType.fieldByName,
          MessageType.fields, FieldDesc.name, freshMessage, findVariant,
          findVariantList, variantIndex, priorityVariant, pyIsdigit,
          setUnrecognized, dinsert]
  · simp [findVariant, findVariantList, variantIndex, priorityVariant]

/-- C3 (amended): for every sequence value met while classifying an
unrecognized field, inference recursively classifies each element; an
element classified `BOOL` — or one whose own inference raises — makes the
whole inference raise an uncaught `ValueError`; otherwise elements of
unrecognized type are skipped (they contribute the bottom priority rather
than aborting), the result is the most general variant among the
recognized elements under INT64 < DOUBLE < STRING, and only when no
element has a recognized variant is the whole value unrecognized and
dropped with a warning rather than stored. -/
theorem claim3_amended (xs : List PyValue) :
    (findVariant (.vlist xs) =
      if xs.any (fun x => elemCrashes x) then .error .valueErr
      else .ok (priorityVariant (xs.foldr (fun x a => max (elemPriority x) a) 0))) ∧
    (∀ (mt : MessageType) (key : String) (m : PyValue) (rest : List (DKey × PyValue)),
      mt.fieldByName key = none → findVariant (.vlist xs) = .ok none →
      decodeEntries mt ((.str key, .vlist xs) :: rest) m = decodeEntries mt rest m) := by
  constructor
  · by_cases hc : xs.any (fun x => elemCrashes x)
    · rw [if_pos hc]
      rw [findVariant]
      rw [findVariantList_crash xs 0 (by simpa [List.any_eq_true] using hc)]
    · rw [if_neg hc]
      rw [findVariant]
      have hnc : ∀ x ∈ xs, elemCrashes x = false := by
        intro x hx
        by_contra hcx
        exact hc (List.any_eq_true.mpr ⟨x, hx, by simpa using hcx⟩)
      rw [findVariantList_no_crash xs 0 hnc]
      simp
  · intro mt key m rest hf hv
    rw [decodeEntries, hf, hv]

/-- Witness for the amended C3 at a concrete input: `[{}]` has no
recognized element, is classified as no variant, and the decode loop drops
it instead of storing it. -/
theorem claim3_amended_witness :
    decodeEntries sampleIntType [(.str "u", .vlist [PyValue.vdict []])]
        (freshMessage sampleIntType) =
      decodeEntries sampleIntType [] (freshMessage sampleIntType) :=
  (claim3_amended [PyValue.vdict []]).2 sampleIntType "u" (freshMessage sampleIntType) []
    (by simp [sampleIntType, MessageType.fieldByName, MessageType.fields, FieldDesc.name])
    (by simp [findVariant, findVariantList, variantIndex, priorityVariant])

/-! ## Claim C5 -/

/-- C5: decoding `{"an_integer": 1, "unrecognized_val": 2}` into the
record type with the matching integer field yields precisely one
unknown-field ledger entry, keyed by the string `"unrecognized_val"` with
info `(2, INT64)`, and re-encoding that record writes the original key and
raw value back verbatim (together with the decoded field). -/
theorem claim5_unknown_roundtrip :
    decodeDictionary sampleIntType
        (.vdict [(.str "an_integer", .vint 1), (.str "unrecognized_val", .vint 2)]) =
      .ok (.vmsg sampleIntType [("an_integer", .vint 1)]
            [(.str "unrecognized_val", .vint 2, .INT64)]) ∧
    encodeValue (.vmsg sampleIntType [("an_integer", .vint 1)]
        [(.str "unrecognized_val", .vint 2, .INT64)]) =
      .vdict [(.str "an_integer", .vint 1), (.str "unrecognized_val", .vint 2)] := by
  constructor
  · simp [decodeDictionary, decodeEntries, decodeFieldList, decodeField,
          sampleIntType, MessageType.fieldByName, MessageType.fields, FieldDesc.name,
          FieldDesc.kind, FieldDesc.repeated, FieldDesc.required, freshMessage,
          toValueList, assignField, validAssign, validElement, setUnrecognized,
          dinsert, findVariant, findVariantList, variantIndex, priorityVariant,
          pyIsdigit, alookup]
  · simp [encodeValue, encodeFields, sampleIntType, MessageType.fields,
          FieldDesc.name, FieldDesc.repeated, alookup, dinsert]

end Pytracts

namespace Pytracts

/-! ## Claim C6 -/

/-- C6: for every decoded key matching no declared field (and whose value
has an inferrable variant), a key consisting only of digits is stored in
the unknown-field ledger under its integer value; a key that is empty or
contains any non-digit character (a leading minus sign, an underscore, a
letter) is stored under its string form.  The concrete conjunct mirrors
the repository test: `"1001"` is stored as the integer 1001 while
`"-123"` and `"456_mixed"` stay strings. -/
theorem claim6_digit_keys :
    (∀ (mt : MessageType) (key : String) (value m : PyValue)
        (rest : List (DKey × PyValue)) (var : Variant),
      mt.fieldByName key = none → findVariant value = .ok (some var) →
      (key.data ≠ [] ∧ ∀ c ∈ key.data, c.isDigit) →
      decodeEntries mt ((.str key, value) :: rest) m =
        decodeEntries mt rest
          (setUnrecognized m (.num (digitsToNat key.data)) value var)) ∧
    (∀ (mt : MessageType) (key : String) (value m : PyValue)
        (rest : List (DKey × PyValue)) (var : Variant),
      mt.fieldByName key = none → findVariant value = .ok (some var) →
      (key.data = [] ∨ ∃ c ∈ key.data, ¬ c.isDigit) →
      decodeEntries mt ((.str key, value) :: rest) m =
        decodeEntries mt rest (setUnrecognized m (.str key) value var)) ∧
    decodeDictionary sampleIntType
        (.vdict [(.str "an_integer", .vint 1), (.str "1001", .vstr "unknown"),
                 (.str "-123", .vstr "negative"), (.str "456_mixed", .vint 2)]) =
      .ok (.vmsg sampleIntType [("an_integer", .vint 1)]
            [(.num 1001, .vstr "unknown", .STRING),
             (.str "-123", .vstr "negative", .STRING),
             (.str "456_mixed", .vint 2, .INT64)]) := by
  refine ⟨?_, ?_, ?_⟩
  · intro mt key value m rest var hf hv hdig
    rw [decodeEntries, hf, hv]
    have : pyIsdigit key = true := by
      rw [pyIsdigit, Bool.and_eq_true]
      constructor
      · cases hk : key.data with
        | nil => exact absurd hk hdig.1
        | cons c cs => rfl
      · exact List.all_eq_true.mpr (fun c hc => hdig.2 c hc)
    rw [this]
    simp
  · intro mt key value m rest var hf hv hnd
    rw [decodeEntries, hf, hv]
    have : pyIsdigit key = false := by
      rw [pyIsdigit]
      rcases hnd with hemp | ⟨c, hc, hnc⟩
      · rw [hemp]
        rfl
      · apply Bool.and_eq_false_iff.mpr
        right
        rw [List.all_eq_false]
        exact ⟨c, hc, by simpa using hnc⟩
    rw [this]
    simp
  · simp [decodeDictionary, decodeEntries, decodeFieldList, decodeField,
          sampleIntType, MessageType.fieldByName, MessageType.fields, FieldDesc.name,
          FieldDesc.kind, FieldDesc.repeated, FieldDesc.required, freshMessage,
          toValueList, assignField, validAssign, validElement, setUnrecognized,
          dinsert, findVariant, findVariantList, variantIndex, priorityVariant,
          pyIsdigit, alookup, digitsToNat]

/-- Witness for C6 at concrete inputs: the digit-only key `"7"` is stored
under the integer 7, the key `"-123"` under its string form. -/
theorem claim6_digit_keys_witness :
    (decodeEntries sampleIntType [(.str "7", .vint 5)] (freshMessage sampleIntType) =
      decodeEntries sampleIntType []
        (setUnrecognized (freshMessage sampleIntType) (.num 7) (.vint 5) .INT64)) ∧
    (decodeEntries sampleIntType [(.str "-123", .vint 5)] (freshMessage sampleIntType) =
      decodeEntries sampleIntType []
        (setUnrecognized (freshMessage sampleIntType) (.str "-123") (.vint 5) .INT64)) := by
  constructor
  · exact (claim6_digit_keys.1) sampleIntType "7" (.vint 5) (freshMessage sampleIntType) [] .INT64
      (by simp [sampleIntType, MessageType.fieldByName, MessageType.fields, FieldDesc.name])
      (by simp [findVariant])
      (by refine ⟨by simp, ?_⟩
          intro c hc
          simp at hc
          subst hc
          decide)
  · exact (claim6_digit_keys.2.1) sampleIntType "-123" (.vint 5) (freshMessage sampleIntType) [] .INT64
      (by simp [sampleIntType, MessageType.fieldByName, MessageType.fields, FieldDesc.name])
      (by simp [findVariant])
      (by right
          refine ⟨'-', by simp, by decide⟩)

/-! ## Claim C7 -/

/-- C7: for every record type, JSON decode of an input that is empty or
whitespace-only returns a freshly constructed record — no error is raised
and no field is assigned (nor any unknown-field entry recorded). -/
theorem claim7_blank_json (parse : String → Option PyValue) (mt : MessageType)
    (s : String) (h : pyBlank s = true) :
    jsonDecodeMessage parse mt s = .ok (freshMessage mt) ∧
    assignedOf (freshMessage mt) = [] ∧ unknownOf (freshMessage mt) = [] := by
  refine ⟨?_, rfl, rfl⟩
  rw [jsonDecodeMessage, h]
  simp

/-- Witness for C7: the empty text and a space decode to the untouched
fresh record. -/
theorem claim7_blank_json_witness :
    jsonDecodeMessage parseEmptyObj sampleIntType "" = .ok (freshMessage sampleIntType) ∧
    jsonDecodeMessage parseEmptyObj sampleIntType " " = .ok (freshMessage sampleIntType) := by
  constructor
  · exact (claim7_blank_json parseEmptyObj sampleIntType "" (by decide)).1
  · exact (claim7_blank_json parseEmptyObj sampleIntType " " (by decide)).1

/-! ## Claim C10 -/

/-- C10: JSON decode of non-empty well-formed input runs the completeness
check on the decoded record and raises `ValidationError` when a required
field is unset, while nested-map decode performs no such check: the empty
map decodes fine into a record type with a required field, but the same
content as JSON text fails. -/
theorem claim10_decode_asymmetry :
    (∀ (parse : String → Option PyValue) (mt : MessageType) (s : String) (v m : PyValue),
      pyBlank s = false → parse s = some v → jsonDecodeDictionary mt v = .ok m →
      isInitialized m = false →
      jsonDecodeMessage parse mt s = .error .validationErr) ∧
    decodeDictionary requiredIntType (.vdict []) = .ok (.vmsg requiredIntType [] []) ∧
    isInitialized (.vmsg requiredIntType [] []) = false ∧
    jsonDecodeMessage parseEmptyObj requiredIntType "\x7b\x7d" = .error .validationErr := by
  refine ⟨?_, ?_, ?_, ?_⟩
  · intro parse mt s v m hb hp hd hi
    rw [jsonDecodeMessage, hb]
    simp only [Bool.not_false, if_true]
    rw [hp]
    simp only []
    rw [hd]
    simp only []
    rw [hi]
    simp
  · simp [decodeDictionary, decodeEntries, freshMessage]
  · simp [isInitialized, fieldsInitialized, requiredIntType, MessageType.fields,
          FieldDesc.name, FieldDesc.required, FieldDesc.kind, alookup]
  · have hb : pyBlank "\x7b\x7d" = false := by decide
    rw [jsonDecodeMessage, hb]
    simp [parseEmptyObj, jsonDecodeDictionary, jsonDecodeEntries, freshMessage,
          isInitialized, fieldsInitialized, requiredIntType, MessageType.fields,
          FieldDesc.name, FieldDesc.required, FieldDesc.kind, alookup]

/-- Witness for C10 at a concrete input: the general JSON-side statement
instantiated on the empty-object text and the required-field record
type. -/
theorem claim10_decode_asymmetry_witness :
    jsonDecodeMessage parseEmptyObj requiredIntType "\x7b\x7d" = .error .validationErr :=
  claim10_decode_asymmetry.1 parseEmptyObj requiredIntType "\x7b\x7d" (.vdict [])
    (.vmsg requiredIntType [] [])
    (by decide)
    (by simp [parseEmptyObj])
    (by simp [jsonDecodeDictionary, jsonDecodeEntries, freshMessage])
    (by simp [isInitialized, fieldsInitialized, requiredIntType, MessageType.fields,
              FieldDesc.name, FieldDesc.required, FieldDesc.kind, alookup])

end Pytracts

namespace Pytracts

/-! ## Fixtures mirroring `tests/to_url_test.py` -/

/-- `test_util.OptionalMessage`: optional int64, string and enum fields. -/
def OptionalMessageT : MessageType := .mk
  [ .mk "int64_value" false false none .kint,
    .mk "string_value" false false none .kstr,
    .mk "enum_value" false false none (.kenum [("VAL1", 1), ("VAL2", 2)]) ]

/-- `to_url_test.SuperMessage`. -/
def SuperMessageT : MessageType := .mk
  [ .mk "sub_message" false false none (.kmsg OptionalMessageT),
    .mk "sub_messages" false true none (.kmsg OptionalMessageT) ]

/-- `to_url_test.SuperSuperMessage`. -/
def SuperSuperMessageT : MessageType := .mk
  [ .mk "sub_message" false false none (.kmsg SuperMessageT),
    .mk "sub_messages" false true none (.kmsg SuperMessageT) ]

/-- `to_url_test.HasRepeated`: one repeated integer field. -/
def HasRepeatedT : MessageType := .mk [.mk "values" false true none .kint]

/-- `to_url_test.HasNestedRepeated`: a repeated message field over
`HasRepeated`. -/
def HasNestedRepeatedT : MessageType := .mk
  [.mk "nested" false true none (.kmsg HasRepeatedT)]

/-! ## Claim C2 -/

/-- C2: query-string decoding treats a key whose path does not address a
real field as a silent non-match reported as a boolean — the first
conjunct: any unresolved path makes `add_parameter` answer `false` with
the record untouched and no exception; the next three conjuncts show the
three rejection shapes (unknown field name anywhere along the path, an
index on a non-repeated field, a missing index on a repeated field that
must be traversed further) all fail path resolution.  The last conjunct is
the asymmetry: a key that resolves to a real non-repeated terminal field
but supplies zero or several raw values raises `DecodeError`. -/
theorem claim2_query_asymmetry :
    (∀ (mt : MessageType) (a : List (String × PyValue))
        (u : List (DKey × PyValue × Variant)) (pre key : String) (values : List String),
      makePath mt pre key = none →
      addParameter (.vmsg mt a u) pre key values = .ok (false, .vmsg mt a u)) ∧
    (∀ (t : MessageType) (seg : List Char) (rest : List (List Char)) (name : String)
        (idx : Option Nat),
      parseSegment seg = (name, idx) → t.fieldByName name = none →
      walkSegments (some t) (seg :: rest) = none) ∧
    (∀ (t : MessageType) (seg : List Char) (rest : List (List Char)) (name : String)
        (i : Nat) (f : FieldDesc),
      parseSegment seg = (name, some i) → t.fieldByName name = some f →
      f.repeated = false →
      walkSegments (some t) (seg :: rest) = none) ∧
    (∀ (t : MessageType) (seg s2 : List Char) (rest : List (List Char)) (name : String)
        (f : FieldDesc),
      parseSegment seg = (name, none) → t.fieldByName name = some f →
      f.repeated = true →
      walkSegments (some t) (seg :: s2 :: rest) = none) ∧
    (∀ (mt : MessageType) (a : List (String × PyValue))
        (u : List (DKey × PyValue × Variant)) (pre key name : String)
        (f : FieldDesc) (values : List String),
      makePath mt pre key = some [(name, none)] → mt.fieldByName name = some f →
      f.repeated = false → values.length ≠ 1 →
      addParameter (.vmsg mt a u) pre key values = .error .decodeErr) := by
  refine ⟨?_, ?_, ?_, ?_, ?_⟩
  · intro mt a u pre key values h
    rw [addParameter, h]
  · intro t seg rest name idx hseg hf
    cases rest with
    | nil =>
        simp only [walkSegments, hseg]
        rw [hf]
    | cons s2 r2 =>
        simp only [walkSegments, hseg]
        rw [hf]
  · intro t seg rest name i f hseg hf hrep
    cases rest with
    | nil =>
        simp only [walkSegments, hseg]
        rw [hf]
        simp only []
        rw [hrep]
        simp
    | cons s2 r2 =>
        simp only [walkSegments, hseg]
        rw [hf]
        simp only []
        rw [hrep]
        simp
  · intro t seg s2 rest name f hseg hf hrep
    simp only [walkSegments, hseg]
    rw [hf]
    simp only []
    rw [hrep]
    simp
  · intro mt a u pre key name f values hpath hf hrep hlen
    rw [addParameter, hpath]
    simp only []
    rw [applyPath.eq_def]
    simp only []
    rw [hf]
    simp only [applyTerminal]
    rw [hrep]
    cases values with
    | nil => rfl
    | cons v vs =>
        cases vs with
        | nil => exact absurd rfl hlen
        | cons v2 vs2 => rfl

/-- Witness for C2 at the repository's own test inputs: the unresolvable
keys of `testMakePath`/`testAddParameter_InvalidAttributes` answer `false`
without an exception, and `testAddParameter_RepeatedParameters`'s
cardinality violations raise `DecodeError`. -/
theorem claim2_query_asymmetry_witness :
    addParameter (freshMessage SuperSuperMessageT) "pre." "pre.nothing" ["x"] =
      .ok (false, freshMessage SuperSuperMessageT) ∧
    addParameter (freshMessage OptionalMessageT) "pre." "pre.int64_value" ["1", "2", "3"] =
      .error .decodeErr ∧
    addParameter (freshMessage OptionalMessageT) "pre." "pre.int64_value" [] =
      .error .decodeErr := by
  refine ⟨?_, ?_, ?_⟩
  · exact claim2_query_asymmetry.1 SuperSuperMessageT [] [] "pre." "pre.nothing" ["x"]
      (by simp [makePath, stripPrefix, splitOnChar, walkSegments, parseSegment,
                SuperSuperMessageT, MessageType.fieldByName, MessageType.fields,
                FieldDesc.name, digitsToNat])
  · exact claim2_query_asymmetry.2.2.2.2 OptionalMessageT [] [] "pre." "pre.int64_value"
      "int64_value" (.mk "int64_value" false false none .kint) ["1", "2", "3"]
      (by simp [makePath, stripPrefix, splitOnChar, walkSegments, parseSegment,
                OptionalMessageT, MessageType.fieldByName, MessageType.fields,
                FieldDesc.name, FieldDesc.repeated, digitsToNat])
      (by simp [OptionalMessageT, MessageType.fieldByName, MessageType.fields,
                FieldDesc.name])
      rfl
      (by simp)
  · exact claim2_query_asymmetry.2.2.2.2 OptionalMessageT [] [] "pre." "pre.int64_value"
      "int64_value" (.mk "int64_value" false false none .kint) []
      (by simp [makePath, stripPrefix, splitOnChar, walkSegments, parseSegment,
                OptionalMessageT, MessageType.fieldByName, MessageType.fields,
                FieldDesc.name, FieldDesc.repeated, digitsToNat])
      (by simp [OptionalMessageT, MessageType.fieldByName, MessageType.fields,
                FieldDesc.name])
      rfl
      (by simp)

end Pytracts

namespace Pytracts

/-! ## Claim C9 -/

theorem admitRepeatedScalar_single (k : FieldKind) (xs : List PyValue) (i : Nat)
    (s : String) (dv : PyValue) (hdv : urlDecodeScalar k s = .ok dv) :
    admitRepeatedScalar k xs (some i) [s] =
      if i < xs.length then .ok (some (xs.set i dv))
      else if i = xs.length then .ok (some (xs ++ [dv]))
      else .ok none := by
  simp only [admitRepeatedScalar.eq_def, hdv, placeAt]
  by_cases h1 : i < xs.length
  · rw [if_pos h1, if_pos h1]
  · rw [if_neg h1, if_neg h1]
    by_cases h2 : i = xs.length
    · rw [if_pos (by simpa using h2), if_pos h2]
    · rw [if_neg (by simpa using h2), if_neg h2]

theorem applyTerminal_repeated_scalar (mt : MessageType)
    (a : List (String × PyValue)) (u : List (DKey × PyValue × Variant))
    (f : FieldDesc) (idx : Option Nat) (values : List String) (xs : List PyValue)
    (hrep : f.repeated = true) (hnk : ∀ t1, f.kind ≠ .kmsg t1)
    (hxs : alookup f.name a = some (.vlist xs)) :
    applyTerminal (.vmsg mt a u) f idx values =
      match admitRepeatedScalar f.kind xs idx values with
      | .error e => .error e
      | .ok none => .ok (false, .vmsg mt a u)
      | .ok (some xs1) =>
          match assignField (.vmsg mt a u) f (.vlist xs1) with
          | .error e => .error e
          | .ok m1 => .ok (true, m1) := by
  rw [applyTerminal.eq_def]
  simp only [assignedOf]
  rw [hrep, if_pos rfl]
  cases hk : f.kind <;> try exact absurd hk (hnk _)
  all_goals
    rw [hxs]


/-- C9: with a repeated field addressed through index `i`, a value is
admitted only when `i` addresses an existing position (overwriting it) or
equals the current length (extending the sequence by exactly one); any
index further beyond the current length is rejected with a `false` answer
and the record unchanged.  The fourth conjunct states the same rejection
for an out-of-range index on an intermediate repeated message segment,
and the last conjunct replays the repository's
`testAddParameter_UnexpectedNestedValue2` sequence. -/
theorem claim9_repeated_index :
    (∀ (mt : MessageType) (a : List (String × PyValue))
        (u : List (DKey × PyValue × Variant)) (f : FieldDesc) (i : Nat) (s : String)
        (dv : PyValue) (xs : List PyValue) (m1 : PyValue),
      f.repeated = true → (∀ t1, f.kind ≠ .kmsg t1) →
      urlDecodeScalar f.kind s = .ok dv →
      alookup f.name a = some (.vlist xs) →
      i < xs.length →
      assignField (.vmsg mt a u) f (.vlist (xs.set i dv)) = .ok m1 →
      applyTerminal (.vmsg mt a u) f (some i) [s] = .ok (true, m1)) ∧
    (∀ (mt : MessageType) (a : List (String × PyValue))
        (u : List (DKey × PyValue × Variant)) (f : FieldDesc) (s : String)
        (dv : PyValue) (xs : List PyValue) (m1 : PyValue),
      f.repeated = true → (∀ t1, f.kind ≠ .kmsg t1) →
      urlDecodeScalar f.kind s = .ok dv →
      alookup f.name a = some (.vlist xs) →
      assignField (.vmsg mt a u) f (.vlist (xs ++ [dv])) = .ok m1 →
      applyTerminal (.vmsg mt a u) f (some xs.length) [s] = .ok (true, m1)) ∧
    (∀ (mt : MessageType) (a : List (String × PyValue))
        (u : List (DKey × PyValue × Variant)) (f : FieldDesc) (i : Nat) (s : String)
        (dv : PyValue) (xs : List PyValue),
      f.repeated = true → (∀ t1, f.kind ≠ .kmsg t1) →
      urlDecodeScalar f.kind s = .ok dv →
      alookup f.name a = some (.vlist xs) →
      i > xs.length →
      applyTerminal (.vmsg mt a u) f (some i) [s] = .ok (false, .vmsg mt a u)) ∧
    (∀ (mt : MessageType) (a : List (String × PyValue))
        (u : List (DKey × PyValue × Variant)) (f : FieldDesc) (t1 : MessageType)
        (name : String) (i : Nat) (rest : QPath) (values : List String)
        (xs : List PyValue),
      mt.fieldByName name = some f → f.kind = .kmsg t1 →
      alookup name a = some (.vlist xs) →
      i > xs.length → rest ≠ [] →
      applyPath (.vmsg mt a u) ((name, some i) :: rest) values =
        .ok (false, .vmsg mt a u)) ∧
    (addParameter (freshMessage HasNestedRepeatedT) "pre." "pre.nested-0.values-0" ["1"] =
      .ok (true, .vmsg HasNestedRepeatedT
            [("nested", .vlist [.vmsg HasRepeatedT [("values", .vlist [.vint 1])] []])] []) ∧
     addParameter
        (.vmsg HasNestedRepeatedT
          [("nested", .vlist [.vmsg HasRepeatedT [("values", .vlist [.vint 1])] []])] [])
        "pre." "pre.nested-1.values-1" ["1"] =
      .ok (false, .vmsg HasNestedRepeatedT
            [("nested", .vlist [.vmsg HasRepeatedT [("values", .vlist [.vint 1])] []])] [])) := by
  refine ⟨?_, ?_, ?_, ?_, ?_, ?_⟩
  · intro mt a u f i s dv xs m1 hrep hnk hdv hxs hi hassign
    rw [applyTerminal_repeated_scalar mt a u f (some i) [s] xs hrep hnk hxs]
    rw [admitRepeatedScalar_single f.kind xs i s dv hdv]
    rw [if_pos hi]
    simp only []
    rw [hassign]
  · intro mt a u f s dv xs m1 hrep hnk hdv hxs hassign
    rw [applyTerminal_repeated_scalar mt a u f (some xs.length) [s] xs hrep hnk hxs]
    rw [admitRepeatedScalar_single f.kind xs xs.length s dv hdv]
    rw [if_neg (by omega), if_pos rfl]
    simp only []
    rw [hassign]
  · intro mt a u f i s dv xs hrep hnk hdv hxs hi
    rw [applyTerminal_repeated_scalar mt a u f (some i) [s] xs hrep hnk hxs]
    rw [admitRepeatedScalar_single f.kind xs i s dv hdv]
    rw [if_neg (by omega), if_neg (by omega)]
  · intro mt a u f t1 name i rest values xs hf hk hxs hi hrest
    cases rest with
    | nil => exact absurd rfl hrest
    | cons p ps =>
        rw [applyPath.eq_def]
        simp only []
        rw [hf]
        simp only []
        rw [hk]
        simp only []
        rw [assignedOf]
        rw [hxs]
        simp only []
        rw [if_neg (by omega), if_neg (by simp; omega)]
  · simp [addParameter, makePath, stripPrefix, splitOnChar, walkSegments,
          parseSegment, HasNestedRepeatedT, HasRepeatedT, MessageType.fieldByName,
          MessageType.fields, FieldDesc.name, FieldDesc.repeated, FieldDesc.kind,
          FieldDesc.required, digitsToNat, freshMessage, applyPath, applyTerminal,
          urlDecodeScalar, strToInt?, admitRepeatedScalar, placeAt, assignField,
          validAssign, validElement, dinsert, alookup, assignedOf]
  · simp [addParameter, makePath, stripPrefix, splitOnChar, walkSegments,
          parseSegment, HasNestedRepeatedT, HasRepeatedT, MessageType.fieldByName,
          MessageType.fields, FieldDesc.name, FieldDesc.repeated, FieldDesc.kind,
          FieldDesc.required, digitsToNat, freshMessage, applyPath, applyTerminal,
          urlDecodeScalar, strToInt?, admitRepeatedScalar, placeAt, assignField,
          validAssign, validElement, dinsert, alookup, assignedOf]

/-- Witness for C9 at concrete inputs: on a repeated integer field holding
`[20]`, index 0 overwrites, index 1 extends, index 2 is rejected leaving
the record unchanged. -/
theorem claim9_repeated_index_witness :
    (applyTerminal (.vmsg HasRepeatedT [("values", .vlist [.vint 20])] [])
        (.mk "values" false true none .kint) (some 0) ["30"] =
      .ok (true, .vmsg HasRepeatedT [("values", .vlist [.vint 30])] [])) ∧
    (applyTerminal (.vmsg HasRepeatedT [("values", .vlist [.vint 20])] [])
        (.mk "values" false true none .kint) (some 1) ["30"] =
      .ok (true, .vmsg HasRepeatedT [("values", .vlist [.vint 20, .vint 30])] [])) ∧
    (applyTerminal (.vmsg HasRepeatedT [("values", .vlist [.vint 20])] [])
        (.mk "values" false true none .kint) (some 2) ["30"] =
      .ok (false, .vmsg HasRepeatedT [("values", .vlist [.vint 20])] [])) := by
  refine ⟨?_, ?_, ?_⟩
  · exact claim9_repeated_index.1 HasRepeatedT [("values", .vlist [.vint 20])] []
      (.mk "values" false true none .kint) 0 "30" (.vint 30) [.vint 20]
      (.vmsg HasRepeatedT [("values", .vlist [.vint 30])] [])
      rfl (by intro t1 h; simp [FieldDesc.kind] at h)
      (by simp [urlDecodeScalar, FieldDesc.kind, strToInt?, digitsToNat])
      (by simp [alookup, FieldDesc.name])
      (by simp)
      (by simp [assignField, validAssign, validElement, FieldDesc.name,
                FieldDesc.repeated, FieldDesc.kind, dinsert])
  · exact claim9_repeated_index.2.1 HasRepeatedT [("values", .vlist [.vint 20])] []
      (.mk "values" false true none .kint) "30" (.vint 30) [.vint 20]
      (.vmsg HasRepeatedT [("values", .vlist [.vint 20, .vint 30])] [])
      rfl (by intro t1 h; simp [FieldDesc.kind] at h)
      (by simp [urlDecodeScalar, FieldDesc.kind, strToInt?, digitsToNat])
      (by simp [alookup, FieldDesc.name])
      (by simp [assignField, validAssign, validElement, FieldDesc.name,
                FieldDesc.repeated, FieldDesc.kind, dinsert])
  · exact claim9_repeated_index.2.2.1 HasRepeatedT [("values", .vlist [.vint 20])] []
      (.mk "values" false true none .kint) 2 "30" (.vint 30) [.vint 20]
      rfl (by intro t1 h; simp [FieldDesc.kind] at h)
      (by simp [urlDecodeScalar, FieldDesc.kind, strToInt?, digitsToNat])
      (by simp [alookup, FieldDesc.name])
      (by simp)

/-! ## Claim C4 -/

theorem decodeEntries_hit (mt : MessageType) (key : String) (value : PyValue)
    (rest : List (DKey × PyValue)) (m : PyValue) (field : FieldDesc)
    (hf : mt.fieldByName key = some field) (hku : field.kind ≠ .kuntyped) :
    decodeEntries mt ((.str key, value) :: rest) m =
      match decodeFieldList field (toValueList value) with
      | .error e => .error e
      | .ok decoded =>
          if field.repeated then
            match assignField m field (.vlist decoded) with
            | .error e => .error e
            | .ok m1 => decodeEntries mt rest m1
          else
            match decoded.getLast? with
            | none => .error .indexErr
            | some last =>
                match assignField m field last with
                | .error e => .error e
                | .ok m1 => decodeEntries mt rest m1 := by
  rw [decodeEntries.eq_def]
  simp only []
  rw [hf]
  simp only []
  cases hk : field.kind <;> try exact absurd hk hku
  all_goals rfl

/-- **C4.** In nested-map decode, a key hitting a declared non-Untyped field
proceeds thus: a non-list raw value decodes exactly as its singleton-list
wrapping; the normalized list is coerced element by element through the
per-kind decode, where an enum field runs the enum constructor on name or
number, a message field decodes the nested dictionary recursively, an
integer field widens a numeric string through `int()` and a float field
widens a numeric string through `float()` and an int to a float; finally
the whole coerced list is assigned when the field is repeated, while only
its last element is assigned when the field is scalar. -/
theorem claim4_nested_map_hit :
    (∀ (mt : MessageType) (key : String) (v : PyValue) (rest : List (DKey × PyValue))
       (m : PyValue) (field : FieldDesc),
       mt.fieldByName key = some field → field.kind ≠ .kuntyped →
       (∀ xs, v ≠ .vlist xs) →
       decodeEntries mt ((.str key, v) :: rest) m =
         decodeEntries mt ((.str key, .vlist [v]) :: rest) m) ∧
    (∀ (field : FieldDesc) (x : PyValue) (xs : List PyValue),
       decodeFieldList field (x :: xs) =
         match decodeField field x with
         | .error e => .error e
         | .ok d =>
             match decodeFieldList field xs with
             | .error e => .error e
             | .ok ds => .ok (d :: ds)) ∧
    (∀ (field : FieldDesc) (members : List (String × Int)) (v : PyValue),
       field.kind = .kenum members → v ≠ .vnone →
       decodeField field v = enumFromValue members v) ∧
    (∀ (field : FieldDesc) (t : MessageType) (v : PyValue),
       field.kind = .kmsg t → v ≠ .vnone →
       decodeField field v = decodeDictionary t v) ∧
    (∀ (field : FieldDesc) (s : String) (n : Int),
       field.kind = .kint → strToInt? s = some n →
       decodeField field (.vstr s) = .ok (.vint n)) ∧
    (∀ (field : FieldDesc) (s : String) (q : Rat),
       field.kind = .kfloat → strToFloat? s = some q →
       decodeField field (.vstr s) = .ok (.vfloat q)) ∧
    (∀ (field : FieldDesc) (n : Int),
       field.kind = .kfloat → decodeField field (.vint n) = .ok (.vfloat (n : Rat))) ∧
    (∀ (mt : MessageType) (key : String) (v : PyValue) (rest : List (DKey × PyValue))
       (m : PyValue) (field : FieldDesc) (decoded : List PyValue),
       mt.fieldByName key = some field → field.kind ≠ .kuntyped →
       field.repeated = true →
       decodeFieldList field (toValueList v) = .ok decoded →
       decodeEntries mt ((.str key, v) :: rest) m =
         match assignField m field (.vlist decoded) with
         | .error e => .error e
         | .ok m1 => decodeEntries mt rest m1) ∧
    (∀ (mt : MessageType) (key : String) (v : PyValue) (rest : List (DKey × PyValue))
       (m : PyValue) (field : FieldDesc) (decoded : List PyValue) (last : PyValue),
       mt.fieldByName key = some field → field.kind ≠ .kuntyped →
       field.repeated = false →
       decodeFieldList field (toValueList v) = .ok decoded →
       decoded.getLast? = some last →
       decodeEntries mt ((.str key, v) :: rest) m =
         match assignField m field last with
         | .error e => .error e
         | .ok m1 => decodeEntries mt rest m1) := by
  refine ⟨?_, ?_, ?_, ?_, ?_, ?_, ?_, ?_, ?_⟩
  · intro mt key v rest m field hf hku hnl
    rw [decodeEntries_hit mt key v rest m field hf hku,
        decodeEntries_hit mt key (.vlist [v]) rest m field hf hku]
    have h : toValueList v = toValueList (.vlist [v]) := by
      cases v <;> first | (exact absurd rfl (hnl _)) | rfl
    rw [h]
  · intro field x xs
    rw [decodeFieldList.eq_def]
  · intro field members v hk hv
    cases v <;> first
      | exact absurd rfl hv
      | simp only [decodeField, hk]
  · intro field t v hk hv
    cases v <;> first
      | exact absurd rfl hv
      | simp only [decodeField, hk]
  · intro field s n hk hn
    simp only [decodeField, hk, hn]
  · intro field s q hk hq
    simp only [decodeField, hk, hq]
  · intro field n hk
    simp only [decodeField, hk]
  · intro mt key v rest m field decoded hf hku hrep hdec
    rw [decodeEntries_hit mt key v rest m field hf hku, hdec]
    simp only []
    rw [hrep, if_pos rfl]
  · intro mt key v rest m field decoded last hf hku hrep hdec hlast
    rw [decodeEntries_hit mt key v rest m field hf hku, hdec]
    simp only []
    rw [hrep]
    rw [if_neg (by simp)]
    rw [hlast]

/-- Witness for C4 at concrete inputs: an unwrapped integer decodes as its
singleton wrapping, a numeric string widens to an integer on an integer
field, and a string on an enum field runs the enum constructor. -/
theorem claim4_nested_map_hit_witness :
    (decodeEntries OptionalMessageT [(.str "int64_value", .vint 7)]
        (freshMessage OptionalMessageT) =
      decodeEntries OptionalMessageT [(.str "int64_value", .vlist [.vint 7])]
        (freshMessage OptionalMessageT)) ∧
    (decodeField (.mk "int64_value" false false none .kint) (.vstr "30") =
      .ok (.vint 30)) ∧
    (decodeField (.mk "enum_value" false false none (.kenum [("VAL1", 1), ("VAL2", 2)]))
        (.vstr "VAL1") =
      enumFromValue [("VAL1", 1), ("VAL2", 2)] (.vstr "VAL1")) := by
  refine ⟨?_, ?_, ?_⟩
  · exact claim4_nested_map_hit.1 OptionalMessageT "int64_value" (.vint 7) []
      (freshMessage OptionalMessageT) (.mk "int64_value" false false none .kint)
      rfl (fun h => nomatch h) (fun xs h => nomatch h)
  · exact claim4_nested_map_hit.2.2.2.2.1 (.mk "int64_value" false false none .kint)
      "30" 30 rfl (by simp [strToInt?, digitsToNat])
  · exact claim4_nested_map_hit.2.2.1
      (.mk "enum_value" false false none (.kenum [("VAL1", 1), ("VAL2", 2)]))
      [("VAL1", 1), ("VAL2", 2)] (.vstr "VAL1") rfl (fun h => nomatch h)

/-! ## Claim C8 -/

/-- A record type holding one optional untyped nested map (`DictField`). -/
def DictHolderT : MessageType := .mk [.mk "d" false false none .kdict]

/-- A record type with one optional nested-message field whose bound type
has a required field. -/
def NestedReqT : MessageType := .mk
  [.mk "inner" false false none (.kmsg requiredIntType)]

/-- A required field with no concrete value makes the per-field
completeness check fail. -/
theorem fieldsInitialized_required_missing (a : List (String × PyValue))
    (f : FieldDesc) (hreq : f.required = true)
    (hmiss : alookup f.name a = none ∨ alookup f.name a = some .vnone) :
    ∀ fs : List FieldDesc, f ∈ fs → fieldsInitialized fs a = false := by
  intro fs
  induction fs with
  | nil => intro h; cases h
  | cons g rest ih =>
      intro hmem
      rw [fieldsInitialized]
      rcases List.mem_cons.1 hmem with hfg | hmemr
      · subst hfg
        rcases hmiss with hm | hm <;> simp [hreq, hm]
      · simp [ih hmemr]

/-- An assigned nested message that itself fails the completeness check
makes the enclosing per-field completeness check fail. -/
theorem fieldsInitialized_nested_uninit (a : List (String × PyValue))
    (f : FieldDesc) (t1 t2 : MessageType) (a1 : List (String × PyValue))
    (u1 : List (DKey × PyValue × Variant)) (hk : f.kind = .kmsg t1)
    (ha : alookup f.name a = some (.vmsg t2 a1 u1))
    (hni : isInitialized (.vmsg t2 a1 u1) = false) :
    ∀ fs : List FieldDesc, f ∈ fs → fieldsInitialized fs a = false := by
  intro fs
  induction fs with
  | nil => intro h; cases h
  | cons g rest ih =>
      intro hmem
      rw [fieldsInitialized]
      rcases List.mem_cons.1 hmem with hfg | hmemr
      · subst hfg
        simp [hk, ha, hni]
        intro hmm
        exfalso
        split at hmm <;> simp_all
      · simp [ih hmemr]

/-- **C8 counterexample.**  A fully initialized record (no required fields)
holding a `datetime` inside a list inside a `DictField` value: the
completeness check passes, yet JSON encode raises `TypeError` from
`json.dumps` (`prep_dict` rewrites `datetime` values of the dictionary and
of nested dictionaries, but not inside lists), so no JSON text is
produced. -/
theorem claim8_counterexample :
    isInitialized
      (.vmsg DictHolderT [("d", .vdict [(.str "a", .vlist [.vdatetime 0])])] []) = true ∧
    jsonEncodeMessage
      (.vmsg DictHolderT [("d", .vdict [(.str "a", .vlist [.vdatetime 0])])] []) =
      .error .typeErr := by
  constructor
  · simp [isInitialized, fieldsInitialized, DictHolderT, MessageType.fields,
          FieldDesc.name, FieldDesc.required, FieldDesc.kind, alookup]
  · rw [jsonEncodeMessage]
    simp [isInitialized, fieldsInitialized, DictHolderT, MessageType.fields,
          FieldDesc.name, FieldDesc.required, FieldDesc.kind, alookup,
          jsonDump, jsonDumpFields, jsonDumpEntries, jsonDumpList, jsonDumpUnknown,
          encodeField, prepDict, prepEntries, dumpKey]

/-- **C8 (amended).**  Both encoders gate on the completeness check: an
instance failing it is rejected with `ValidationError` by JSON encode and
by nested-map encode alike; an instance passing it proceeds — nested-map
encode to its dictionary encoding, JSON encode to `json.dumps`
serialization (which produces the JSON text only when every encoded field
value is JSON-serializable, as the counterexample shows).  A required
field without a concrete value fails the check, recursively through
assigned nested-message values. -/
theorem claim8_amended :
    (∀ (t : MessageType) (a : List (String × PyValue))
       (u : List (DKey × PyValue × Variant)),
       isInitialized (.vmsg t a u) = false →
       jsonEncodeMessage (.vmsg t a u) = .error .validationErr ∧
       encode_message (.vmsg t a u) = .error .validationErr) ∧
    (∀ (t : MessageType) (a : List (String × PyValue))
       (u : List (DKey × PyValue × Variant)),
       isInitialized (.vmsg t a u) = true →
       jsonEncodeMessage (.vmsg t a u) = jsonDump (.vmsg t a u) ∧
       encode_message (.vmsg t a u) = .ok (encodeValue (.vmsg t a u))) ∧
    (∀ (t : MessageType) (a : List (String × PyValue))
       (u : List (DKey × PyValue × Variant)) (f : FieldDesc),
       f ∈ t.fields → f.required = true →
       (alookup f.name a = none ∨ alookup f.name a = some .vnone) →
       isInitialized (.vmsg t a u) = false) ∧
    (∀ (t : MessageType) (a : List (String × PyValue))
       (u : List (DKey × PyValue × Variant)) (f : FieldDesc)
       (t1 t2 : MessageType) (a1 : List (String × PyValue))
       (u1 : List (DKey × PyValue × Variant)),
       f ∈ t.fields → f.kind = .kmsg t1 →
       alookup f.name a = some (.vmsg t2 a1 u1) →
       isInitialized (.vmsg t2 a1 u1) = false →
       isInitialized (.vmsg t a u) = false) := by
  refine ⟨?_, ?_, ?_, ?_⟩
  · intro t a u h
    constructor
    · rw [jsonEncodeMessage, h]
      simp
    · rw [encode_message, h]
      simp
  · intro t a u h
    constructor
    · rw [jsonEncodeMessage, h]
      simp
    · rw [encode_message, h]
      simp
  · intro t a u f hmem hreq hmiss
    rw [isInitialized]
    exact fieldsInitialized_required_missing a f hreq hmiss t.fields hmem
  · intro t a u f t1 t2 a1 u1 hmem hk ha hni
    rw [isInitialized]
    exact fieldsInitialized_nested_uninit a f t1 t2 a1 u1 hk ha hni t.fields hmem

/-- Witness for C8 at concrete inputs: the uninitialized required-field
record is rejected by both encoders, an initialized record proceeds to
serialization in both, a missing required value fails the check, and an
uninitialized nested message fails the enclosing check. -/
theorem claim8_amended_witness :
    (jsonEncodeMessage (.vmsg requiredIntType [] []) = .error .validationErr ∧
     encode_message (.vmsg requiredIntType [] []) = .error .validationErr) ∧
    (jsonEncodeMessage (.vmsg sampleIntType [("an_integer", .vint 5)] []) =
       jsonDump (.vmsg sampleIntType [("an_integer", .vint 5)] []) ∧
     encode_message (.vmsg sampleIntType [("an_integer", .vint 5)] []) =
       .ok (encodeValue (.vmsg sampleIntType [("an_integer", .vint 5)] []))) ∧
    isInitialized (.vmsg requiredIntType [] []) = false ∧
    isInitialized (.vmsg NestedReqT [("inner", .vmsg requiredIntType [] [])] []) = false := by
  refine ⟨?_, ?_, ?_, ?_⟩
  · exact claim8_amended.1 requiredIntType [] []
      (by simp [isInitialized, fieldsInitialized, requiredIntType, MessageType.fields,
                FieldDesc.name, FieldDesc.required, FieldDesc.kind, alookup])
  · exact claim8_amended.2.1 sampleIntType [("an_integer", .vint 5)] []
      (by simp [isInitialized, fieldsInitialized, sampleIntType, MessageType.fields,
                FieldDesc.name, FieldDesc.required, FieldDesc.kind, alookup])
  · exact claim8_amended.2.2.1 requiredIntType [] [] (.mk "required" true false none .kint)
      (by simp [requiredIntType, MessageType.fields]) rfl (Or.inl rfl)
  · exact claim8_amended.2.2.2 NestedReqT [("inner", .vmsg requiredIntType [] [])] []
      (.mk "inner" false false none (.kmsg requiredIntType)) requiredIntType
      requiredIntType [] []
      (by simp [NestedReqT, MessageType.fields]) rfl
      (by simp [alookup, FieldDesc.name])
      (by simp [isInitialized, fieldsInitialized, requiredIntType, MessageType.fields,
                FieldDesc.name, FieldDesc.required, FieldDesc.kind, alookup])

/-! ## Claim C1: inverses of the modelled external codings -/

/-- Pairwise distinctness of a name list. -/
def namesNodup : List String → Bool
  | [] => true
  | n :: rest => rest.all (fun m => !(m == n)) && namesNodup rest

mutual

/-- A record instance in the canonical form the decoders produce: no
unknown-field ledger entries, pairwise-distinct field names, assigned
fields listed in declaration order, and every assigned value of the exact
shape its field stores. -/
def dictOkMsg : PyValue → Prop
  | .vmsg t assigned unknown =>
      unknown = [] ∧ namesNodup (t.fields.map (fun f => f.name)) = true ∧
        dictOkFields t.fields assigned
  | _ => False
termination_by v => (sizeOf v, 0)
decreasing_by
  all_goals
    try simp_wf
    first
    | (apply Prod.Lex.right
       omega)
    | (apply Prod.Lex.left
       omega)

/-- The assigned table pairs off, in declaration order, against the field
list. -/
def dictOkFields (fs : List FieldDesc) (assigned : List (String × PyValue)) : Prop :=
  match fs with
  | [] => assigned = []
  | f :: rest =>
      match assigned with
      | [] => dictOkFields rest []
      | (n, v) :: arest =>
          if n = f.name then dictOkVal f v ∧ dictOkFields rest arest
          else dictOkFields rest ((n, v) :: arest)
termination_by (sizeOf assigned, 3 + fs.length)
decreasing_by
  all_goals
    try simp_wf
    first
    | (apply Prod.Lex.right
       omega)
    | (apply Prod.Lex.left
       omega)

/-- One assigned value: a sequence of valid elements for a repeated field,
`None` (when the field is optional) or one valid element for a scalar
field. -/
def dictOkVal (f : FieldDesc) (v : PyValue) : Prop :=
  if f.repeated then
    match v with
    | .vlist xs => dictOkList f.kind xs
    | _ => False
  else
    match v with
    | .vnone => f.required = false
    | v => dictOkElem f.kind v
termination_by (sizeOf v, 2)
decreasing_by
  all_goals
    try simp_wf
    first
    | (apply Prod.Lex.right
       omega)
    | (apply Prod.Lex.left
       omega)

def dictOkList (k : FieldKind) (xs : List PyValue) : Prop :=
  match xs with
  | [] => True
  | x :: rest => x ≠ .vnone ∧ dictOkElem k x ∧ dictOkList k rest
termination_by (sizeOf xs, 2)
decreasing_by
  all_goals
    try simp_wf
    first
    | (apply Prod.Lex.right
       omega)
    | (apply Prod.Lex.left
       omega)

/-- One stored element of the given kind, in the shape that survives the
nested-map encode/decode pair untouched. -/
def dictOkElem (k : FieldKind) (v : PyValue) : Prop :=
  match k, v with
  | .kint, .vint _ => True
  | .kfloat, .vfloat _ => True
  | .kbool, .vbool _ => True
  | .kstr, .vstr _ => True
  | .kbytes, .vbytes _ => True
  | .kdtIso, .vdatetime _ => True
  | .kdtMs, .vdatetime _ => True
  | .kuuid, .vuuid _ => True
  | .kdict, .vdict _ => True
  | .kuntyped, .venum _ _ => False
  | .kuntyped, .vmsg _ _ _ => False
  | .kuntyped, .vnone => False
  | .kuntyped, _ => True
  | .kenum members, .venum n num => members.find? (fun m => m.1 == n) = some (n, num)
  | .kmsg t1, .vmsg t2 a2 u2 => t2 = t1 ∧ dictOkMsg (.vmsg t2 a2 u2)
  | _, _ => False
termination_by (sizeOf v, 1)
decreasing_by
  all_goals
    try simp_wf
    first
    | (apply Prod.Lex.right
       omega)
    | (apply Prod.Lex.left
       omega)

end

/-! ### Association-list and name bookkeeping -/

theorem encodeValue_stable (v : PyValue)
    (h1 : ∀ n num, v ≠ .venum n num) (h2 : ∀ t a u, v ≠ .vmsg t a u) :
    encodeValue v = v := by
  cases v <;> first
    | exact absurd rfl (h1 _ _)
    | exact absurd rfl (h2 _ _ _)
    | simp [encodeValue]

mutual

/-- A pure JSON tree: the values `json.dumps`/`json.loads` map to
themselves (string-keyed objects, arrays, numbers, booleans, text,
`null`). -/
def jsonNative : PyValue → Prop
  | .vnone => True
  | .vbool _ => True
  | .vint _ => True
  | .vfloat _ => True
  | .vstr _ => True
  | .vlist xs => jsonNativeList xs
  | .vdict kvs => jsonNativeEntries kvs
  | _ => False
termination_by v => (sizeOf v, 1)
decreasing_by
  all_goals
    try simp_wf
    first
    | (apply Prod.Lex.right
       omega)
    | (apply Prod.Lex.left
       omega)

def jsonNativeList : List PyValue → Prop
  | [] => True
  | x :: rest => jsonNative x ∧ jsonNativeList rest
termination_by xs => (sizeOf xs, 0)
decreasing_by
  all_goals
    try simp_wf
    first
    | (apply Prod.Lex.right
       omega)
    | (apply Prod.Lex.left
       omega)

def jsonNativeEntries : List (DKey × PyValue) → Prop
  | [] => True
  | (k, v) :: rest => (∃ s, k = .str s) ∧ jsonNative v ∧ jsonNativeEntries rest
termination_by kvs => (sizeOf kvs, 0)
decreasing_by
  all_goals
    try simp_wf
    first
    | (apply Prod.Lex.right
       omega)
    | (apply Prod.Lex.left
       omega)

end

/-- The kinds whose JSON field encoding passes an assigned `None` through
(rather than raising on it or stringifying it). -/
def noneSafe : FieldKind → Bool
  | .kbytes => false
  | .kdtIso => false
  | .kdtMs => false
  | .kuuid => false
  | _ => true

mutual

/-- A record instance in canonical form whose every stored value survives
the JSON encode/decode pair. -/
def jsonOkMsg : PyValue → Prop
  | .vmsg t assigned unknown =>
      unknown = [] ∧ namesNodup (t.fields.map (fun f => f.name)) = true ∧
        jsonOkFields t.fields assigned
  | _ => False
termination_by v => (sizeOf v, 0)
decreasing_by
  all_goals
    try simp_wf
    first
    | (apply Prod.Lex.right
       omega)
    | (apply Prod.Lex.left
       omega)

def jsonOkFields (fs : List FieldDesc) (assigned : List (String × PyValue)) : Prop :=
  match fs with
  | [] => assigned = []
  | f :: rest =>
      match assigned with
      | [] => jsonOkFields rest []
      | (n, v) :: arest =>
          if n = f.name then jsonOkVal f v ∧ jsonOkFields rest arest
          else jsonOkFields rest ((n, v) :: arest)
termination_by (sizeOf assigned, 3 + fs.length)
decreasing_by
  all_goals
    try simp_wf
    first
    | (apply Prod.Lex.right
       omega)
    | (apply Prod.Lex.left
       omega)

def jsonOkVal (f : FieldDesc) (v : PyValue) : Prop :=
  if f.repeated then
    match v with
    | .vlist xs => jsonOkList f.kind xs
    | _ => False
  else
    match v with
    | .vnone => f.required = false ∧ noneSafe f.kind = true
    | v => jsonOkElem f.kind v
termination_by (sizeOf v, 2)
decreasing_by
  all_goals
    try simp_wf
    first
    | (apply Prod.Lex.right
       omega)
    | (apply Prod.Lex.left
       omega)

def jsonOkList (k : FieldKind) (xs : List PyValue) : Prop :=
  match xs with
  | [] => True
  | x :: rest => x ≠ .vnone ∧ jsonOkElem k x ∧ jsonOkList k rest
termination_by (sizeOf xs, 2)
decreasing_by
  all_goals
    try simp_wf
    first
    | (apply Prod.Lex.right
       omega)
    | (apply Prod.Lex.left
       omega)

def jsonOkElem (k : FieldKind) (v : PyValue) : Prop :=
  match k, v with
  | .kint, .vint _ => True
  | .kfloat, .vfloat _ => True
  | .kbool, .vbool _ => True
  | .kstr, .vstr _ => True
  | .kbytes, .vbytes bs => ∀ b ∈ bs, b < 256
  | .kdtIso, .vdatetime _ => True
  | .kdtMs, .vdatetime _ => True
  | .kuuid, .vuuid _ => True
  | .kdict, .vdict kvs => jsonNativeEntries kvs
  | .kuntyped, .vnone => False
  | .kuntyped, .venum _ _ => False
  | .kuntyped, .vmsg _ _ _ => False
  | .kuntyped, v => jsonNative v
  | .kenum members, .venum n num => members.find? (fun m => m.1 == n) = some (n, num)
  | .kmsg t1, .vmsg t2 a2 u2 => t2 = t1 ∧ jsonOkMsg (.vmsg t2 a2 u2)
  | _, _ => False
termination_by (sizeOf v, 1)
decreasing_by
  all_goals
    try simp_wf
    first
    | (apply Prod.Lex.right
       omega)
    | (apply Prod.Lex.left
       omega)

end

end Pytracts
